import Mathlib

/-! # The XCOM save reader (`src/xcomreader.cpp`)

A shallow embedding of `XComReader`: the reader object is a record holding the
buffer `start_` points to, the cursor `ptr_` as an offset from `start_`, and
`length_`.  Every member function of the source becomes a function from the
reader state to `Except Err (result × new state)`.

Conventions of the embedding

* bytes are `Fin 256`; `uint32_t` values are natural numbers below `2^32`,
  and every place where the source computes in `uint32_t` carries an explicit
  `% 2^32`;
* the source performs no bounds check at all: a read or write outside the
  buffer is undefined behaviour there and is the error `Err.outOfBounds` here;
* `assert` is taken as active: a failed assertion is `Err.assertion`;
* loops whose termination depends on the data take a fuel argument and give
  `Err.outOfFuel` when it is used up;
* text written to `stderr` or through `DBG`, and the debug dump written to
  `output.dat`, are not part of the state and are left out.
-/

namespace XCom

/-- One `unsigned char`. -/
abbrev Byte := Fin 256

/-- The bytes of a C string literal, without its terminator. -/
def ascii (s : String) : List Byte :=
  s.toList.map (fun c => ⟨c.toNat % 256, Nat.mod_lt _ (by decide)⟩)

/-- The ways in which the embedded code stops without a result. -/
inductive Err where
  /-- an access outside the buffer (undefined behaviour in the source) -/
  | outOfBounds
  /-- a failed `assert` -/
  | assertion
  /-- an integer division by zero -/
  | divideByZero
  /-- `back()` on an empty vector (undefined behaviour in the source) -/
  | emptyBack
  /-- the fuel of a data-dependent loop is used up -/
  | outOfFuel
  deriving DecidableEq, Repr

/-- The members of `XComReader`: the buffer at `start_`, the cursor `ptr_`
as an offset into it, and `length_`. -/
structure XComReader where
  start_ : List Byte
  ptr_ : Nat
  length_ : Nat
  deriving DecidableEq, Repr

/-- The little-endian value of four bytes. -/
def le32val (b0 b1 b2 b3 : Byte) : Nat :=
  b0.val + 256 * b1.val + 65536 * b2.val + 16777216 * b3.val

/-- The value `*(uint32_t*)(start + off)`: the four bytes at offset `off`,
little-endian; `none` when they are not all inside the buffer. -/
def peek32 (start : List Byte) (off : Nat) : Option Nat :=
  match start.drop off with
  | b0 :: b1 :: b2 :: b3 :: _ => some (le32val b0 b1 b2 b3)
  | _ => none

/-- The source function `XComReader::readInt32` (lines 8-13). -/
def readInt32 (r : XComReader) : Except Err (Nat × XComReader) :=
  match peek32 r.start_ r.ptr_ with
  | some v => .ok (v, { r with ptr_ := r.ptr_ + 4 })
  | none => .error .outOfBounds

/-- The source function `XComReader::readFloat` (lines 15-20): the result is
the bit pattern of the `float`, kept as the 32-bit number it is read from. -/
def readFloat (r : XComReader) : Except Err (Nat × XComReader) :=
  match peek32 r.start_ r.ptr_ with
  | some v => .ok (v, { r with ptr_ := r.ptr_ + 4 })
  | none => .error .outOfBounds

/-- The source function `XComReader::readBool` (lines 22-25). -/
def readBool (r : XComReader) : Except Err (Bool × XComReader) := do
  let (v, r) ← readInt32 r
  pure (decide (v ≠ 0), r)

/-- The bytes of the C string that starts at the head of `bs`: everything
before the first zero byte.  `none` when there is no zero byte, in which case
`strlen` runs off the end of the buffer. -/
def cstr : List Byte → Option (List Byte)
  | [] => none
  | b :: bs => if b = 0 then some [] else (cstr bs).map (fun s => b :: s)

/-- The literal `"<error>"` returned by `readString` on a length mismatch. -/
def errorString : List Byte := ascii "<error>"

/-- The source function `XComReader::readString` (lines 27-46).  The result is
the content of the C string the returned pointer points to. -/
def readString (r : XComReader) : Except Err (List Byte × XComReader) := do
  let (len, r) ← readInt32 r
  if len = 0 then
    pure ([], r)
  else
    match cstr (r.start_.drop r.ptr_) with
    | none => .error .outOfBounds
    | some str =>
      -- `actualLen != (len-1)`: the error path returns before `ptr_ += len`
      if str.length ≠ len - 1 then
        pure (errorString, r)
      else
        pure (str, { r with ptr_ := r.ptr_ + len })

/-- The `n` bytes at the cursor, as `memcpy(dst, ptr_, n); ptr_ += n` and the
loops `*ptr_++` read them. -/
def readBytes (n : Nat) (r : XComReader) : Except Err (List Byte × XComReader) :=
  let bs := (r.start_.drop r.ptr_).take n
  if bs.length = n then .ok (bs, { r with ptr_ := r.ptr_ + n }) else .error .outOfBounds

/-- Modelled from the spec: the record `XComSaveHeader` is declared in
`xcomreader.h`, which is not among the sources; the fields are those
`readHeader` assigns.  The default value is the zero-initialised header
`return {0}` produces. -/
structure XComSaveHeader where
  version : Nat := 0
  uncompressedSize : Nat := 0
  gameNumber : Nat := 0
  saveNumber : Nat := 0
  saveDescription : List Byte := []
  time : List Byte := []
  mapCommand : List Byte := []
  tacticalSave : Bool := false
  ironman : Bool := false
  autoSave : Bool := false
  dlcString : List Byte := []
  language : List Byte := []
  crc : Nat := 0
  deriving DecidableEq, Repr

/-- The source function `XComReader::readHeader` (lines 48-69). -/
def readHeader (r : XComReader) : Except Err (XComSaveHeader × XComReader) := do
  let (version, r) ← readInt32 r
  if version ≠ 0x10 then
    pure ({}, r)
  else do
    let (uncompressedSize, r) ← readInt32 r
    let (gameNumber, r) ← readInt32 r
    let (saveNumber, r) ← readInt32 r
    let (saveDescription, r) ← readString r
    let (time, r) ← readString r
    let (mapCommand, r) ← readString r
    let (tacticalSave, r) ← readBool r
    let (ironman, r) ← readBool r
    let (autoSave, r) ← readBool r
    let (dlcString, r) ← readString r
    let (language, r) ← readString r
    let (crc, r) ← readInt32 r
    pure ({ version, uncompressedSize, gameNumber, saveNumber, saveDescription, time,
            mapCommand, tacticalSave, ironman, autoSave, dlcString, language, crc }, r)

/-- Modelled from the spec: `XComActorTable` (declared in `xcomreader.h`) is a
vector of (name, instance number) pairs. -/
abbrev XComActorTable := List (List Byte × Nat)

/-- The `for` loop of `readActorTable` (lines 76-80), with `n` iterations
left. -/
def readActorTableLoop : Nat → XComActorTable → XComReader →
    Except Err (XComActorTable × XComReader)
  | 0, actorTable, r => pure (actorTable, r)
  | n + 1, actorTable, r => do
    let (name, r) ← readString r
    let (instanceNum, r) ← readInt32 r
    readActorTableLoop n (actorTable ++ [(name, instanceNum)]) r

/-- The source function `XComReader::readActorTable` (lines 71-83). -/
def readActorTable (r : XComReader) : Except Err (XComActorTable × XComReader) := do
  let (actorCount, r) ← readInt32 r
  readActorTableLoop actorCount [] r

/-- The enumeration `XComProperty::Kind`. -/
inductive Kind where
  | ObjectProperty | IntProperty | ByteProperty | BoolProperty | ArrayProperty
  | FloatProperty | StructProperty | StrProperty | StaticArrayProperty
  deriving DecidableEq, Repr

/-- Modelled from the spec: the property classes `XComObjectProperty`, ...,
`XComStaticArrayProperty` are declared in `xcomreader.h`, which is not among
the sources.  Each constructor carries the arguments `readProperties` passes to
the class's constructor, in that order; `struct` and `structNative` are the two
constructors of `XComStructProperty`; a `float` is kept as its bit pattern; the
`arrayData` pointer of an array is `none` when it is `nullptr`. -/
inductive XComProperty where
  | object (name : List Byte) (data : List Byte)
  | int (name : List Byte) (intVal : Nat)
  | byte (name enumType enumVal : List Byte) (extVal : Nat)
  | bool (name : List Byte) (boolVal : Bool)
  | array (name : List Byte) (arrayData : Option (List Byte)) (arrayBound elementSize : Nat)
  | float (name : List Byte) (f : Nat)
  | structNative (name structName : List Byte) (nativeData : List Byte) (size : Nat)
  | struct (name structName : List Byte) (structProps : List XComProperty)
  | str (name : List Byte) (str : List Byte)
  | staticArray (name : List Byte) (properties : List XComProperty)
  deriving Repr

/-- The accessor `XComProperty::getName`. -/
def XComProperty.getName : XComProperty → List Byte
  | .object name _ => name
  | .int name _ => name
  | .byte name _ _ _ => name
  | .bool name _ => name
  | .array name _ _ _ => name
  | .float name _ => name
  | .structNative name _ _ _ => name
  | .struct name _ _ => name
  | .str name _ => name
  | .staticArray name _ => name

/-- The accessor `XComProperty::getKind`. -/
def XComProperty.getKind : XComProperty → Kind
  | .object _ _ => .ObjectProperty
  | .int _ _ => .IntProperty
  | .byte _ _ _ _ => .ByteProperty
  | .bool _ _ => .BoolProperty
  | .array _ _ _ _ => .ArrayProperty
  | .float _ _ => .FloatProperty
  | .structNative _ _ _ _ => .StructProperty
  | .struct _ _ _ => .StructProperty
  | .str _ _ => .StrProperty
  | .staticArray _ _ => .StaticArrayProperty

/-- The type `XComPropertyList`: a vector of properties, in insertion order. -/
abbrev XComPropertyList := List XComProperty

/-- Lines 186-213 of `readProperties`: a property `prop` just read, with the
`name` and `arrayIdx` of its entry, is put into `properties`.  A name that
differs from the last entry's is only logged (lines 190-192). -/
def coalesce (properties : XComPropertyList) (name : List Byte) (arrayIdx : Nat)
    (prop : XComProperty) : Except Err XComPropertyList :=
  if arrayIdx = 0 then
    pure (properties ++ [prop])
  else
    match properties.getLast? with
    | none => .error .emptyBack
    | some (.staticArray arrayName elems) =>
      -- `assert(arrayIdx == ...->size())`, then `addProperty` on the last entry
      if arrayIdx = elems.length then
        pure (properties.dropLast ++ [.staticArray arrayName (elems ++ [prop])])
      else
        .error .assertion
    | some lastProp =>
      -- `assert(arrayIdx == 1)`, `pop_back`, and a new static array is pushed
      if arrayIdx = 1 then
        pure (properties.dropLast ++ [.staticArray name [lastProp, prop]])
      else
        .error .assertion

/-- The `ObjectProperty` branch of `readProperties` (lines 110-114). -/
def readObjectProperty (name : List Byte) (propSize : Nat) (r : XComReader) :
    Except Err (XComProperty × XComReader) := do
  let (data, r) ← readBytes propSize r
  pure (.object name data, r)

/-- The `IntProperty` branch of `readProperties` (lines 117-119). -/
def readIntProperty (name : List Byte) (propSize : Nat) (r : XComReader) :
    Except Err (XComProperty × XComReader) := do
  if propSize ≠ 4 then throw Err.assertion
  let (intVal, r) ← readInt32 r
  pure (.int name intVal, r)

/-- The `ByteProperty` branch of `readProperties` (lines 122-129). -/
def readByteProperty (name : List Byte) (r : XComReader) :
    Except Err (XComProperty × XComReader) := do
  let (enumType, r) ← readString r
  let (_innerUnknown, r) ← readInt32 r
  let (enumVal, r) ← readString r
  let (extVal, r) ← readInt32 r
  pure (.byte name enumType enumVal extVal, r)

/-- The `BoolProperty` branch of `readProperties` (lines 132-134). -/
def readBoolProperty (name : List Byte) (propSize : Nat) (r : XComReader) :
    Except Err (XComProperty × XComReader) := do
  if propSize ≠ 0 then throw Err.assertion
  let (b, r) ← readBytes 1 r
  pure (.bool name (decide (b ≠ [0])), r)

/-- The `ArrayProperty` branch of `readProperties` (lines 137-144).  The
element size `propSize == 4 ? 0 : (propSize - 4)/arrayBound` is computed in
`uint32_t`. -/
def readArrayProperty (name : List Byte) (propSize : Nat) (r : XComReader) :
    Except Err (XComProperty × XComReader) := do
  let (arrayBound, r) ← readInt32 r
  let (arrayData, r) ←
    if 4 < propSize then do
      let (data, r) ← readBytes (propSize - 4) r
      pure (some data, r)
    else
      pure (none, r)
  let elementSize ←
    if propSize = 4 then pure 0
    else if arrayBound = 0 then throw Err.divideByZero
    else pure (((propSize + 2 ^ 32 - 4) % 2 ^ 32) / arrayBound)
  pure (.array name arrayData arrayBound elementSize, r)

/-- The `FloatProperty` branch of `readProperties` (lines 147-148). -/
def readFloatProperty (name : List Byte) (r : XComReader) :
    Except Err (XComProperty × XComReader) := do
  let (f, r) ← readFloat r
  pure (.float name f, r)

/-- The `StructProperty` branch of `readProperties` (lines 151-174).  The
argument `readProperties` is the function the branch calls on itself
(line 172). -/
def readStructProperty
    (readProperties : XComReader → Nat → Except Err (XComPropertyList × XComReader))
    (name : List Byte) (propSize : Nat) (r : XComReader) :
    Except Err (XComProperty × XComReader) := do
  let (structName, r) ← readString r
  let (_innerUnknown, r) ← readInt32 r
  if structName = ascii "Vector2D" then do
    if propSize ≠ 8 then throw Err.assertion
    let (nativeData, r) ← readBytes 8 r
    pure (.structNative name structName nativeData 8, r)
  else if structName = ascii "Vector" then do
    if propSize ≠ 12 then throw Err.assertion
    let (nativeData, r) ← readBytes 12 r
    pure (.structNative name structName nativeData 12, r)
  else do
    let (structProps, r) ← readProperties r propSize
    pure (.struct name structName structProps, r)

/-- The `StrProperty` branch of `readProperties` (lines 177-178). -/
def readStrProperty (name : List Byte) (r : XComReader) :
    Except Err (XComProperty × XComReader) := do
  let (str, r) ← readString r
  pure (.str name str, r)

/-- The dispatch on the type tag in `readProperties` (lines 108-183): the
property `prop` points to afterwards, `none` when it is still null because no
branch matched the tag. -/
def readPropertyValue
    (readProperties : XComReader → Nat → Except Err (XComPropertyList × XComReader))
    (name propType : List Byte) (propSize : Nat) (r : XComReader) :
    Except Err (Option XComProperty × XComReader) :=
  if propType = ascii "ObjectProperty" then
    (readObjectProperty name propSize r).map (fun x => (some x.1, x.2))
  else if propType = ascii "IntProperty" then
    (readIntProperty name propSize r).map (fun x => (some x.1, x.2))
  else if propType = ascii "ByteProperty" then
    (readByteProperty name r).map (fun x => (some x.1, x.2))
  else if propType = ascii "BoolProperty" then
    (readBoolProperty name propSize r).map (fun x => (some x.1, x.2))
  else if propType = ascii "ArrayProperty" then
    (readArrayProperty name propSize r).map (fun x => (some x.1, x.2))
  else if propType = ascii "FloatProperty" then
    (readFloatProperty name r).map (fun x => (some x.1, x.2))
  else if propType = ascii "StructProperty" then
    (readStructProperty readProperties name propSize r).map (fun x => (some x.1, x.2))
  else if propType = ascii "StrProperty" then
    (readStrProperty name r).map (fun x => (some x.1, x.2))
  else
    .ok (none, r)

/-- What one pass through the body of the `while` loop of `readProperties`
reads (lines 91-183): the `"None"` name that ends the list, or an entry with
its name, its array index and the property built from it (`none` when `prop`
stays null, lines 180-183). -/
inductive Entry where
  | sentinel
  | property (name : List Byte) (arrayIdx : Nat) (prop : Option XComProperty)
  deriving Repr

/-- Lines 91-183 of `readProperties`: the reads of one pass through the loop
body.  The argument `readProperties` is the function the struct branch calls
on itself (line 172). -/
def readEntry (readProperties : XComReader → Nat → Except Err (XComPropertyList × XComReader))
    (r : XComReader) : Except Err (Entry × XComReader) := do
  let (name, r) ← readString r
  let (_unknown1, r) ← readInt32 r
  if name = ascii "None" then
    pure (.sentinel, r)
  else do
    let (propType, r) ← readString r
    let (_unknown2, r) ← readInt32 r
    let (propSize, r) ← readInt32 r
    let (arrayIdx, r) ← readInt32 r
    let (prop, r) ← readPropertyValue readProperties name propType propSize r
    pure (.property name arrayIdx prop, r)

/-- The `while (ptr_ < endpos)` loop of `readProperties` (lines 89-215), from
the state in which `properties` has been collected so far.  One unit of fuel
is used by each pass and by each level of struct nesting. -/
def readPropertiesLoop : Nat → Nat → XComPropertyList → XComReader →
    Except Err (XComPropertyList × XComReader)
  | 0, _, _, _ => .error .outOfFuel
  | fuel + 1, endpos, properties, r =>
    if r.ptr_ < endpos then
      match readEntry (fun r dataLen => readPropertiesLoop fuel (r.ptr_ + dataLen) [] r) r with
      | .error e => .error e
      | .ok (.sentinel, r) => .ok (properties, r)
      | .ok (.property _ _ none, r) => readPropertiesLoop fuel endpos properties r
      | .ok (.property name arrayIdx (some prop), r) =>
        match coalesce properties name arrayIdx prop with
        | .error e => .error e
        | .ok properties => readPropertiesLoop fuel endpos properties r
    else
      .ok (properties, r)

/-- The source function `XComReader::readProperties` (lines 85-218). -/
def readProperties (fuel : Nat) (r : XComReader) (dataLen : Nat) :
    Except Err (XComPropertyList × XComReader) :=
  readPropertiesLoop fuel (r.ptr_ + dataLen) [] r

/-- Modelled from the spec: `XComCheckpoint` is declared in `xcomreader.h`,
which is not among the sources; the fields are those `readCheckpointTable`
assigns.  `padSize` is `none` as long as nothing has been assigned to it
(line 240 is the only assignment); it is taken to be a 32-bit field. -/
structure XComCheckpoint where
  name : List Byte := []
  instanceName : List Byte := []
  vector : List Nat := []
  rotator : List Nat := []
  className : List Byte := []
  properties : XComPropertyList := []
  padSize : Option Nat := none
  templateIndex : Nat := 0
  deriving Repr

/-- The type `XComCheckpointTable`: a vector of checkpoints. -/
abbrev XComCheckpointTable := List XComCheckpoint

/-- Lines 237-247 of `readCheckpointTable`: the property block of declared
length `propLen` is read, and then the padding up to that length.  The result
is the property list and the value assigned to `padSize`, which is `none` when
the assignment of line 240 is not reached. -/
def readCheckpointProperties (fuel : Nat) (propLen : Nat) (r : XComReader) :
    Except Err ((XComPropertyList × Option Nat) × XComReader) := do
  let startPtr := r.ptr_
  let (properties, r) ← readProperties fuel r propLen
  -- `uint32_t(ptr_ - startPtr) < propLen`
  let consumed := (r.ptr_ - startPtr) % 2 ^ 32
  if consumed < propLen then do
    let padSize := propLen - consumed
    let (_padding, r) ← readBytes padSize r
    pure ((properties, some padSize), r)
  else
    pure ((properties, none), r)

/-- The `for` loop of `readCheckpointTable` (lines 225-250), with `n`
iterations left; `fuel` is the fuel of each call of `readProperties`. -/
def readCheckpointTableLoop (fuel : Nat) : Nat → XComCheckpointTable → XComReader →
    Except Err (XComCheckpointTable × XComReader)
  | 0, checkpointTable, r => pure (checkpointTable, r)
  | n + 1, checkpointTable, r => do
    let (name, r) ← readString r
    let (instanceName, r) ← readString r
    let (vector0, r) ← readFloat r
    let (vector1, r) ← readFloat r
    let (vector2, r) ← readFloat r
    let (rotator0, r) ← readFloat r
    let (rotator1, r) ← readFloat r
    let (rotator2, r) ← readFloat r
    let (className, r) ← readString r
    let (propLen, r) ← readInt32 r
    let ((properties, padSize), r) ← readCheckpointProperties fuel propLen r
    let (templateIndex, r) ← readInt32 r
    let chk : XComCheckpoint :=
      { name, instanceName, vector := [vector0, vector1, vector2],
        rotator := [rotator0, rotator1, rotator2], className, properties, padSize,
        templateIndex }
    readCheckpointTableLoop fuel n (checkpointTable ++ [chk]) r

/-- The source function `XComReader::readCheckpointTable` (lines 220-253). -/
def readCheckpointTable (fuel : Nat) (r : XComReader) :
    Except Err (XComCheckpointTable × XComReader) := do
  let (checkpointCount, r) ← readInt32 r
  readCheckpointTableLoop fuel checkpointCount [] r

/-- Modelled from the spec: `XComActorTemplate` is declared in
`xcomreader.h`, which is not among the sources. -/
structure XComActorTemplate where
  actorClassPath : List Byte
  loadParams : List Byte
  archetypePath : List Byte
  deriving DecidableEq, Repr

/-- The type `XComActorTemplateTable`: a vector of actor templates. -/
abbrev XComActorTemplateTable := List XComActorTemplate

/-- The `for` loop of `readActorTemplateTable` (lines 260-267), with `n`
iterations left. -/
def readActorTemplateTableLoop : Nat → XComActorTemplateTable → XComReader →
    Except Err (XComActorTemplateTable × XComReader)
  | 0, templateTable, r => pure (templateTable, r)
  | n + 1, templateTable, r => do
    let (actorClassPath, r) ← readString r
    let (loadParams, r) ← readBytes 64 r
    let (archetypePath, r) ← readString r
    readActorTemplateTableLoop n
      (templateTable ++ [{ actorClassPath, loadParams, archetypePath }]) r

/-- The source function `XComReader::readActorTemplateTable` (lines 255-270). -/
def readActorTemplateTable (r : XComReader) :
    Except Err (XComActorTemplateTable × XComReader) := do
  let (templateCount, r) ← readInt32 r
  readActorTemplateTableLoop templateCount [] r

/-- The magic number at the start of each compressed chunk. -/
def chunkMagic : Nat := 0x9e2a83c1

/-- The step `compressedSize + 24` of the chunk walks (lines 318 and 357),
computed in `uint32_t` as in the source. -/
def chunkStride (compressedSize : Nat) : Nat := (compressedSize + 24) % 2 ^ 32

/-- The conversion of a `uint32_t` to the `int32_t` that
`getUncompressedSize` returns. -/
def toInt32 (v : Nat) : Int :=
  if v % 2 ^ 32 < 2 ^ 31 then ((v % 2 ^ 32 : Nat) : Int) else ((v % 2 ^ 32 : Nat) : Int) - 2 ^ 32

/-- The conversion of an `int32_t` to `uint32_t` (line 375). -/
def toUInt32 (v : Int) : Nat := (v % 2 ^ 32).toNat

/-- The `do ... while` loop of `getUncompressedSize` (lines 303-319), at the
chunk at offset `p` with `uncompressedSize` summed so far.  The two size
fields are read as 32-bit values: the low four bytes of the
`unsigned long` reads are all that reaches the `uint32_t` variables. -/
def getUncompressedSizeLoop : Nat → XComReader → Nat → Nat → Except Err Int
  | 0, _, _, _ => .error .outOfFuel
  | fuel + 1, r, p, uncompressedSize =>
    match peek32 r.start_ p with
    | none => .error .outOfBounds
    | some magic =>
      if magic ≠ chunkMagic then
        .ok (-1)
      else
        match peek32 r.start_ (p + 8), peek32 r.start_ (p + 12) with
        | some compressedSize, some chunkSize =>
          let uncompressedSize := (uncompressedSize + chunkSize) % 2 ^ 32
          let p := p + chunkStride compressedSize
          if p < r.length_ then
            getUncompressedSizeLoop fuel r p uncompressedSize
          else
            .ok (toInt32 uncompressedSize)
        | _, _ => .error .outOfBounds

/-- The source function `XComReader::getUncompressedSize` (lines 297-322). -/
def getUncompressedSize (fuel : Nat) (r : XComReader) : Except Err Int :=
  getUncompressedSizeLoop fuel r 1024 0

/-- What a call of `lzo1x_decompress_safe` gives back: whether it returned
`LZO_E_OK`, and the bytes it wrote to the destination (their number is the
`decompSize` it reports). -/
structure LzoResult where
  ok : Bool
  out : List Byte
  deriving DecidableEq, Repr

/-- Modelled from the spec: `lzo1x_decompress_safe` is the library routine of
`minilzo.h`, which is not among the sources; it is a parameter of the
embedding.  Its arguments are the bytes of the source range that lie inside
the buffer, the declared source length and the capacity of the destination. -/
abbrev Decompressor := List Byte → Nat → Nat → LzoResult

/-- The bytes `data` stored at offset `off` of `buf`; a store that does not fit
is outside the allocation. -/
def writeAt (buf : List Byte) (off : Nat) (data : List Byte) : Except Err (List Byte) :=
  if off + data.length ≤ buf.length then
    .ok (buf.take off ++ data ++ buf.drop (off + data.length))
  else
    .error .outOfBounds

/-- The `do ... while` loop of `getUncompressedData` (lines 329-359), at the
chunk at offset `p`, with `buf` the output buffer and `outp` the offset of the
output cursor in it.  The result is the output buffer when the function
returns. -/
def getUncompressedDataLoop (lzo : Decompressor) : Nat → XComReader → Nat → List Byte → Nat →
    Except Err (List Byte)
  | 0, _, _, _, _ => .error .outOfFuel
  | fuel + 1, r, p, buf, outp =>
    match peek32 r.start_ p with
    | none => .error .outOfBounds
    | some magic =>
      if magic ≠ chunkMagic then
        .ok buf
      else
        match peek32 r.start_ (p + 8), peek32 r.start_ (p + 12) with
        | some compressedSize, some uncompressedSize =>
          let res := lzo ((r.start_.drop (p + 24)).take compressedSize) compressedSize
            uncompressedSize
          match writeAt buf outp res.out with
          | .error e => .error e
          | .ok buf =>
            if res.ok = false then
              .ok buf
            else if res.out.length ≠ uncompressedSize then
              .ok buf
            else
              let p := p + chunkStride compressedSize
              let outp := outp + uncompressedSize
              if p < r.length_ then
                getUncompressedDataLoop lzo fuel r p buf outp
              else
                .ok buf
        | _, _ => .error .outOfBounds

/-- The source function `XComReader::getUncompressedData` (lines 324-360);
`buf` is the content of
the buffer the argument points to. -/
def getUncompressedData (lzo : Decompressor) (fuel : Nat) (r : XComReader) (buf : List Byte) :
    Except Err (List Byte) :=
  getUncompressedDataLoop lzo fuel r 1024 buf 0

/-- Modelled from the spec: `XComCheckpointChunk` is declared in
`xcomreader.h`, which is not among the sources; the fields are those
`getSaveData` assigns. -/
structure XComCheckpointChunk where
  unknownInt1 : Nat := 0
  unknownString1 : List Byte := []
  unknownInt2 : Nat := 0
  checkpointTable : XComCheckpointTable := []
  unknownString2 : List Byte := []
  actorTable : XComActorTable := []
  unknownInt3 : Nat := 0
  gameName : List Byte := []
  mapName : List Byte := []
  unknownInt4 : Nat := 0
  deriving Repr

/-- Modelled from the spec: `XComSave` is declared in `xcomreader.h`, which is
not among the sources.  The default value is the empty document `return {}`
produces. -/
structure XComSave where
  header : XComSaveHeader := {}
  actorTable : XComActorTable := []
  checkpoints : List XComCheckpointChunk := []
  deriving Repr

/-- The content of `new unsigned char[n]`: `n` bytes whose values are not
determined by the program; `uninit` gives the byte found at each offset. -/
def allocate (uninit : Nat → Byte) : Nat → Nat → List Byte
  | 0, _ => []
  | n + 1, off => uninit off :: allocate uninit n (off + 1)

/-- The `do ... while` loop of `getSaveData` (lines 391-431), with the chunks
read so far in `save`. -/
def readCheckpointChunks : Nat → Nat → XComSave → XComReader → Except Err (XComSave × XComReader)
  | 0, _, _, _ => .error .outOfFuel
  | fuel + 1, propFuel, save, r => do
    let (unknownInt1, r) ← readInt32 r
    let (unknownString1, r) ← readString r
    let (none_, r) ← readString r
    if none_ ≠ ascii "None" then
      pure ({}, r)
    else do
      let (unknownInt2, r) ← readInt32 r
      let (checkpointTable, r) ← readCheckpointTable propFuel r
      let (nameTableLen, r) ← readInt32 r
      if nameTableLen ≠ 0 then throw Err.assertion
      let (unknownString2, r) ← readString r
      let (actorTable, r) ← readActorTable r
      let (unknownInt3, r) ← readInt32 r
      let (actorTemplateTable, r) ← readActorTemplateTable r
      if actorTemplateTable.length ≠ 0 then throw Err.assertion
      let (gameName, r) ← readString r
      let (mapName, r) ← readString r
      let (unknownInt4, r) ← readInt32 r
      let chunk : XComCheckpointChunk :=
        { unknownInt1, unknownString1, unknownInt2, checkpointTable, unknownString2,
          actorTable, unknownInt3, gameName, mapName, unknownInt4 }
      let save := { save with checkpoints := save.checkpoints ++ [chunk] }
      if r.ptr_ < r.length_ then
        readCheckpointChunks fuel propFuel save r
      else
        pure (save, r)

/-- The source function `XComReader::getSaveData` (lines 362-433).  `uninit`
is the content of
freshly allocated memory; `fuel` bounds each of the data-dependent loops. -/
def getSaveData (lzo : Decompressor) (uninit : Nat → Byte) (fuel : Nat) (r : XComReader) :
    Except Err (XComSave × XComReader) := do
  let (header, r) ← readHeader r
  -- `uint32_t uncompressedSize = getUncompressedSize();`
  let uncompressedSize := toUInt32 (← getUncompressedSize fuel r)
  if uncompressedSize < 0 then
    pure ({}, r)
  else do
    let uncompressedData ← getUncompressedData lzo fuel r (allocate uninit uncompressedSize 0)
    -- `start_ = ptr_ = uncompressedData; length_ = uncompressedSize;`
    let r : XComReader := { start_ := uncompressedData, ptr_ := 0, length_ := uncompressedSize }
    let (actorTable, r) ← readActorTable r
    readCheckpointChunks fuel fuel { header, actorTable } r

/-! ## The serialized form, as the format describes it

The encoders below are not part of the source (it has no writer): they state
the byte layout of the format, against which the reader is checked. -/

/-- A 32-bit value in the little-endian byte order of the format. -/
def encodeInt32 (v : Nat) : List Byte :=
  [⟨v % 256, Nat.mod_lt _ (by decide)⟩, ⟨v / 256 % 256, Nat.mod_lt _ (by decide)⟩,
   ⟨v / 65536 % 256, Nat.mod_lt _ (by decide)⟩, ⟨v / 16777216 % 256, Nat.mod_lt _ (by decide)⟩]

/-- The string encoding of the format: the length `L`, which counts the
terminator, then the content bytes and one zero byte. -/
def encodeString (s : List Byte) : List Byte :=
  encodeInt32 (s.length + 1) ++ s ++ [0]

/-- The serialized entry of an `IntProperty`: name, reserved field 0, the type
tag, reserved field 0, declared size 4, array index, and the value. -/
def encodeIntProperty (name : List Byte) (arrayIdx v : Nat) : List Byte :=
  encodeString name ++ encodeInt32 0 ++ encodeString (ascii "IntProperty") ++ encodeInt32 0
    ++ encodeInt32 4 ++ encodeInt32 arrayIdx ++ encodeInt32 v

/-- The `"None"` name that ends a property list, with its reserved field. -/
def encodeNone : List Byte :=
  encodeString (ascii "None") ++ encodeInt32 0

/-- One serialized property entry, as a pass through the loop of
`readProperties` reads it: its name, its array index, and the property built
from it (`none` for a type tag that no branch matches). -/
structure PropertyEntry where
  name : List Byte
  arrayIdx : Nat
  prop : Option XComProperty
  deriving Repr

/-- The entries of the serialized property list in the byte range that ends
at `endpos`: what the passes of the loop of `readProperties` read, up to the
`"None"` name or the end of the range, with nothing done to them. -/
def serializedEntries : Nat → Nat → XComReader → Except Err (List PropertyEntry × XComReader)
  | 0, _, _ => .error .outOfFuel
  | fuel + 1, endpos, r =>
    if r.ptr_ < endpos then
      match readEntry (fun r dataLen => readPropertiesLoop fuel (r.ptr_ + dataLen) [] r) r with
      | .error e => .error e
      | .ok (.sentinel, r) => .ok ([], r)
      | .ok (.property name arrayIdx prop, r) =>
        match serializedEntries fuel endpos r with
        | .error e => .error e
        | .ok (entries, r) => .ok (⟨name, arrayIdx, prop⟩ :: entries, r)
    else
      .ok ([], r)

/-- The coalescing step `coalesce` applied to a list of entries in order,
starting from `properties`; an entry without a property changes nothing. -/
def coalesceAll : XComPropertyList → List PropertyEntry → Except Err XComPropertyList
  | properties, [] => .ok properties
  | properties, ⟨_, _, none⟩ :: entries => coalesceAll properties entries
  | properties, ⟨name, arrayIdx, some prop⟩ :: entries =>
    match coalesce properties name arrayIdx prop with
    | .error e => .error e
    | .ok properties => coalesceAll properties entries

/-- Consecutive entries that carry the same `name` and the array indices
`first`, `first + 1`, ..., one for each of the given properties. -/
def indexedRun (name : List Byte) (first : Nat) : XComPropertyList → List PropertyEntry
  | [] => []
  | prop :: props => ⟨name, first, some prop⟩ :: indexedRun name (first + 1) props

/-! ## Concrete inputs used by the evaluations below -/

/-- A property list holding `W` (index 0), then `X` three times with the
indices 0, 1, 2, then `"None"`. -/
def sampleRun : List Byte :=
  encodeIntProperty (ascii "W") 0 9 ++ encodeIntProperty (ascii "X") 0 5
    ++ encodeIntProperty (ascii "X") 1 6 ++ encodeIntProperty (ascii "X") 2 7 ++ encodeNone

/-- A property list holding `X` (index 0), then `Y` (index 0), then `"None"`. -/
def samplePair : List Byte :=
  encodeIntProperty (ascii "X") 0 1 ++ encodeIntProperty (ascii "Y") 0 2 ++ encodeNone

/-- A header whose version field is 0x11, followed by bytes that are not
read. -/
def sampleBadHeader : List Byte := [0x11, 0, 0, 0, 1, 2, 3, 4]

/-- A complete header with version 0x10: game number 7, save number 3, the
description "A", empty strings otherwise, the ironman flag set, checksum 0. -/
def sampleHeader : List Byte :=
  encodeInt32 0x10 ++ encodeInt32 64 ++ encodeInt32 7 ++ encodeInt32 3 ++ encodeString (ascii "A")
    ++ encodeInt32 0 ++ encodeInt32 0 ++ encodeInt32 0 ++ encodeInt32 1 ++ encodeInt32 0
    ++ encodeInt32 0 ++ encodeInt32 0 ++ encodeInt32 0

/-- A well-formed chain of chunks in the container `start`, from the chunk at
offset `off` to the end of the buffer: each chunk has the magic number at +0,
its compressed size `c` at +8 and its uncompressed size at +12, the next chunk
begins `24 + c` bytes later, and the chain ends exactly at the length of the
buffer.  `sizes` lists the uncompressed sizes of the chunks in order. -/
def ChunkChain (start : List Byte) : Nat → List Nat → Prop
  | off, [] => off = start.length
  | off, s :: sizes =>
    peek32 start off = some chunkMagic ∧ peek32 start (off + 12) = some s ∧
      ∃ c, peek32 start (off + 8) = some c ∧ ChunkChain start (off + 24 + c) sizes

/-- The 24-byte header of a chunk. -/
def encodeChunkHeader (compressedSize uncompressedSize : Nat) : List Byte :=
  encodeInt32 chunkMagic ++ encodeInt32 0 ++ encodeInt32 compressedSize
    ++ encodeInt32 uncompressedSize ++ List.replicate 8 0

/-- A container of one chunk without payload whose declared uncompressed size
is `2^31`. -/
def sampleLargeChunk : List Byte :=
  List.replicate 1024 0 ++ encodeChunkHeader 0 (2 ^ 31)

/-- A container of two chunks: the first with 3 payload bytes and the declared
uncompressed size 5, the second without payload and the declared size 7. -/
def sampleTwoChunks : List Byte :=
  List.replicate 1024 0 ++ encodeChunkHeader 3 5 ++ [1, 2, 3] ++ encodeChunkHeader 0 7

/-- The chunks a walk passes before it arrives at the chunk at offset `bad`:
starting at the chunk at offset `off`, each of them has the magic number at
+0, decompresses without error into as many bytes as its uncompressed size at
+12 declares, and is followed inside the container by a further chunk, which
the walk reaches by its step `chunkStride c` (that is `24 + c` bytes later, in
the 32-bit arithmetic of the walk).  `outs` lists the decompressed outputs of
these chunks in order. -/
def ChunksBefore (lzo : Decompressor) (r : XComReader) : Nat → List (List Byte) → Nat → Prop
  | off, [], bad => off = bad
  | off, out :: outs, bad =>
    peek32 r.start_ off = some chunkMagic ∧
      ∃ c s, peek32 r.start_ (off + 8) = some c ∧ peek32 r.start_ (off + 12) = some s ∧
        lzo ((r.start_.drop (off + 24)).take c) c s = ⟨true, out⟩ ∧ out.length = s ∧
        off + chunkStride c < r.length_ ∧ ChunksBefore lzo r (off + chunkStride c) outs bad

/-- A stand-in for the decompressor that copies its source to the
destination. -/
def storedLzo : Decompressor := fun src _ _ => ⟨true, src⟩

/-- A container of three chunks with stored payloads `[1, 2, 3]`, `[4, 5]` and
`[6]`, in which the magic number of the third chunk is damaged. -/
def sampleBadThirdChunk : List Byte :=
  List.replicate 1024 0 ++ encodeChunkHeader 3 3 ++ [1, 2, 3] ++ encodeChunkHeader 2 2 ++ [4, 5]
    ++ ([0xc1, 0x83, 0x2a, 0x9f] ++ (encodeChunkHeader 1 1).drop 4) ++ [6]

/-- A decompressed save body: the actor table `[("Foo", 0)]` and one
checkpoint chunk whose checkpoint table holds one checkpoint with the property
list `[IntProperty "HP" = 5, "None"]`. -/
def sampleBody : List Byte :=
  encodeInt32 1 ++ encodeString (ascii "Foo") ++ encodeInt32 0
    ++ encodeInt32 0 ++ encodeInt32 0 ++ encodeString (ascii "None") ++ encodeInt32 0
    ++ encodeInt32 1 ++ encodeString (ascii "C") ++ encodeString (ascii "C_0")
    ++ encodeInt32 0 ++ encodeInt32 0 ++ encodeInt32 0 ++ encodeInt32 0 ++ encodeInt32 0
    ++ encodeInt32 0 ++ encodeString (ascii "K") ++ encodeInt32 56
    ++ encodeIntProperty (ascii "HP") 0 5 ++ encodeNone ++ encodeInt32 0
    ++ encodeInt32 0 ++ encodeInt32 0 ++ encodeInt32 0 ++ encodeInt32 0 ++ encodeInt32 0
    ++ encodeInt32 0 ++ encodeInt32 0 ++ encodeInt32 0

/-- A raw save: the header `sampleHeader` with its version field replaced by
`version`, zero bytes up to offset 1024, and one chunk that stores
`sampleBody`. -/
def sampleSave (version : Nat) : List Byte :=
  encodeInt32 version ++ sampleHeader.drop 4 ++ List.replicate 970 0
    ++ encodeChunkHeader sampleBody.length sampleBody.length ++ sampleBody

/-- A raw save with a valid header in which the four bytes at offset 1024 are
not the magic number. -/
def sampleBadFirstChunk : List Byte :=
  sampleHeader ++ List.replicate 970 0 ++ [0, 0, 0, 0]

/-- The document that `sampleBody` holds, under the given header. -/
def sampleDocument (header : XComSaveHeader) : XComSave :=
  { header := header
    actorTable := [(ascii "Foo", 0)]
    checkpoints :=
      [{ checkpointTable :=
          [{ name := ascii "C", instanceName := ascii "C_0", vector := [0, 0, 0],
             rotator := [0, 0, 0], className := ascii "K",
             properties := [.int (ascii "HP") 5] }] }] }

/-- The serialized entry of an `ArrayProperty`: name, reserved field 0, the
type tag, reserved field 0, declared size, array index, the element count, and
the payload bytes. -/
def encodeArrayProperty (name : List Byte) (propSize arrayIdx arrayBound : Nat)
    (payload : List Byte) : List Byte :=
  encodeString name ++ encodeInt32 0 ++ encodeString (ascii "ArrayProperty") ++ encodeInt32 0
    ++ encodeInt32 propSize ++ encodeInt32 arrayIdx ++ encodeInt32 arrayBound ++ payload

/-- A property list holding one array `A` with declared size 8, element count 0
and the four payload bytes 1, 2, 3, 4, then `"None"`. -/
def sampleEmptyArray : List Byte :=
  encodeArrayProperty (ascii "A") 8 0 0 [1, 2, 3, 4] ++ encodeNone

/-- A property list holding one array `A` with declared size 0 and element
count 1, then `"None"`. -/
def sampleShortArray : List Byte :=
  encodeArrayProperty (ascii "A") 0 0 1 [] ++ encodeNone

/-- The eight type tags for which `readProperties` has a branch. -/
def recognisedTags : List (List Byte) :=
  [ascii "ObjectProperty", ascii "IntProperty", ascii "ByteProperty", ascii "BoolProperty",
   ascii "ArrayProperty", ascii "FloatProperty", ascii "StructProperty", ascii "StrProperty"]

/-- The serialized header of an entry with an arbitrary type tag: name,
reserved field 0, the tag, reserved field 0, declared size, array index. -/
def encodeEntryHeader (name propType : List Byte) (propSize arrayIdx : Nat) : List Byte :=
  encodeString name ++ encodeInt32 0 ++ encodeString propType ++ encodeInt32 0
    ++ encodeInt32 propSize ++ encodeInt32 arrayIdx

/-- The body of a `StructProperty` of struct type `"Vector2D"`: the struct
name, reserved field 0, and eight bytes. -/
def sampleVector2D : List Byte :=
  encodeString (ascii "Vector2D") ++ encodeInt32 0 ++ [1, 2, 3, 4, 5, 6, 7, 8]

/-- The body of a `StructProperty` of struct type `"Vector"`: the struct name,
reserved field 0, and twelve bytes. -/
def sampleVector : List Byte :=
  encodeString (ascii "Vector") ++ encodeInt32 0 ++ [1, 2, 3, 4, 5, 6, 7, 8, 9, 10, 11, 12]

/-- The body of a `StructProperty` of struct type `"S"`: the struct name,
reserved field 0, and the nested list `[IntProperty "HP" = 5, "None"]`. -/
def sampleStruct : List Byte :=
  encodeString (ascii "S") ++ encodeInt32 0 ++ encodeIntProperty (ascii "HP") 0 5 ++ encodeNone

/-- A property list holding the one entry `X` with the array index 1, then
`"None"`. -/
def sampleIndexOneFirst : List Byte :=
  encodeIntProperty (ascii "X") 1 5 ++ encodeNone

/-- A property list holding an entry `U` of the unknown type `"FooProperty"`
with declared size 0 and array index 0, then the entry `X` with the array
index 1, then `"None"`. -/
def sampleUnknownThenIndexed : List Byte :=
  encodeEntryHeader (ascii "U") (ascii "FooProperty") 0 0 ++ encodeIntProperty (ascii "X") 1 5
    ++ encodeNone

/-- A property list holding `X` with the array index 0, then `Y` with the
array index 1, then `"None"`. -/
def sampleMixedNames : List Byte :=
  encodeIntProperty (ascii "X") 0 5 ++ encodeIntProperty (ascii "Y") 1 6 ++ encodeNone

/-- Every recognised entry with a non-zero array index carries the name of the
recognised entry read before it; `last` is the name of the recognised entry
read before the first of the entries, if there is one. -/
def namesFollow : Option (List Byte) → List PropertyEntry → Prop
  | _, [] => True
  | last, ⟨_, _, none⟩ :: entries => namesFollow last entries
  | last, ⟨name, arrayIdx, some _⟩ :: entries =>
    (arrayIdx ≠ 0 → last = some name) ∧ namesFollow (some name) entries

/-- Every static array of the list holds only elements that carry the name of
the static array. -/
def uniformArrays (properties : XComPropertyList) : Prop :=
  ∀ name elems, XComProperty.staticArray name elems ∈ properties →
    ∀ e ∈ elems, e.getName = name

/-- A container of one chunk whose compressed-size field holds `2^32 - 24`. -/
def sampleWrappingChunk : List Byte :=
  List.replicate 1024 0 ++ encodeChunkHeader 4294967272 0

/-- The offsets of the chunks the walk of `getUncompressedSize` visits in the
container of `r`: the chunk at offset 1024, and the chunk that follows a
visited chunk with a valid magic number as long as its offset is below
`length_`. -/
inductive Visited (r : XComReader) : Nat → Prop where
  | first : Visited r 1024
  | next (off c : Nat) : Visited r off → peek32 r.start_ off = some chunkMagic →
      peek32 r.start_ (off + 8) = some c → off + chunkStride c < r.length_ →
      Visited r (off + chunkStride c)

/-- The reader state `r'` comes after `r`: the buffer and `length_` are the
same, the cursor has moved forward by at least `k` bytes, and it is not beyond
the end of the buffer unless it was there before. -/
def Follows (k : Nat) (r r' : XComReader) : Prop :=
  r'.start_ = r.start_ ∧ r'.length_ = r.length_ ∧ r.ptr_ + k ≤ r'.ptr_ ∧
    r'.ptr_ ≤ max r.ptr_ r.start_.length

/-- The outcome `x` of a read that starts in the state `r`: an error is one of
those `E` allows, and a result comes with a state that follows `r` by at least
`k` bytes. -/
def Reads {α : Type} (E : Err → Prop) (k : Nat) (r : XComReader)
    (x : Except Err (α × XComReader)) : Prop :=
  match x with
  | .error e => E e
  | .ok (_, r') => Follows k r r'

/-- A checkpoint table of one record: the names `A`, `B`, six floats whose
bytes are zero, the class name `C`, the declared length `propLen` of the
property block, the property list `[IntProperty "HP" = 5, "None"]` of 56
bytes, the bytes `padding`, and the template index 9. -/
def sampleCheckpointTable (propLen : Nat) (padding : List Byte) : List Byte :=
  encodeInt32 1 ++ encodeString (ascii "A") ++ encodeString (ascii "B")
    ++ List.replicate 24 0 ++ encodeString (ascii "C") ++ encodeInt32 propLen
    ++ encodeIntProperty (ascii "HP") 0 5 ++ encodeNone ++ padding ++ encodeInt32 9

/-- A pass through the body of the loop of `readProperties` (lines 91-183),
begun in the state `r`, has read `entry` and left the reader in the state `r'`;
`n` is the fuel of the calls the struct branch makes. -/
@[irreducible] def EntryAt (n : Nat) (r : XComReader) (entry : Entry) (r' : XComReader) :
    Prop :=
  readEntry (readProperties n) r = .ok (entry, r')

/-- The passes of the loop of `readProperties` (lines 89-215) as a relation
between reader states: `LoopRun endpos r r'` says that the loop with the end
`endpos` of the declared range, entered in the state `r`, is left in the state
`r'`.  It is left when the test `ptr_ < endpos` of line 89 fails or when a
pass has read the `"None"` name (line 94); any other pass that has read its
entry goes back to the test.  A pass is begun only in a state in which the
test holds. -/
inductive LoopRun (endpos : Nat) : XComReader → XComReader → Prop where
  | bound (r : XComReader) : endpos ≤ r.ptr_ → LoopRun endpos r r
  | sentinel (n : Nat) (r r' : XComReader) : r.ptr_ < endpos →
      EntryAt n r .sentinel r' → LoopRun endpos r r'
  | entry (n : Nat) (r r1 r' : XComReader) (name : List Byte) (arrayIdx : Nat)
      (prop : Option XComProperty) : r.ptr_ < endpos →
      EntryAt n r (.property name arrayIdx prop) r1 →
      LoopRun endpos r1 r' → LoopRun endpos r r'

/-- Equality of results can be decided. -/
instance instDecidableEqExcept {ε α : Type} [DecidableEq ε] [DecidableEq α] :
    DecidableEq (Except ε α)
  | .ok a, .ok b => decidable_of_iff (a = b) (by simp)
  | .error a, .error b => decidable_of_iff (a = b) (by simp)
  | .ok _, .error _ => isFalse (by simp)
  | .error _, .ok _ => isFalse (by simp)

/-! ## Auxiliary facts -/

set_option maxRecDepth 8000

theorem readInt32_ok {r r1 : XComReader} {v : Nat} (h : readInt32 r = .ok (v, r1)) :
    peek32 r.start_ r.ptr_ = some v ∧ r1 = { r with ptr_ := r.ptr_ + 4 } := by
  unfold readInt32 at h
  split at h
  · simp only [Except.ok.injEq, Prod.mk.injEq] at h
    rename_i w hw
    exact ⟨by rw [hw, h.1], h.2.symm⟩
  · simp at h

theorem cstr_append (content rest : List Byte) (h : ∀ b ∈ content, b ≠ 0) :
    cstr (content ++ 0 :: rest) = some content := by
  induction content with
  | nil => simp [cstr]
  | cons b bs ih =>
    have hb : b ≠ 0 := h b (by simp)
    have hbs : ∀ c ∈ bs, c ≠ 0 := fun c hc => h c (by simp [hc])
    simp [cstr, hb, ih hbs]

theorem drop_advance {start a rest : List Byte} {p : Nat} (h : start.drop p = a ++ rest) :
    start.drop (p + a.length) = rest := by
  rw [← List.drop_drop, h, List.drop_left]

theorem peek32_encodeInt32 {start rest : List Byte} {p v : Nat} (hv : v < 2 ^ 32)
    (h : start.drop p = encodeInt32 v ++ rest) : peek32 start p = some v := by
  simp only [peek32, h, encodeInt32, List.cons_append, List.nil_append, le32val, Option.some.injEq]
  omega

theorem readInt32_encodeInt32 {r : XComReader} {rest : List Byte} {v : Nat} (hv : v < 2 ^ 32)
    (h : r.start_.drop r.ptr_ = encodeInt32 v ++ rest) :
    readInt32 r = .ok (v, { r with ptr_ := r.ptr_ + 4 }) ∧ r.start_.drop (r.ptr_ + 4) = rest := by
  refine ⟨?_, ?_⟩
  · simp [readInt32, peek32_encodeInt32 hv h]
  · have := drop_advance h
    simpa [encodeInt32] using this

theorem readString_encodeString {r : XComReader} {rest s : List Byte} (hs : ∀ b ∈ s, b ≠ 0)
    (hlen : s.length + 1 < 2 ^ 32)
    (h : r.start_.drop r.ptr_ = encodeString s ++ rest) :
    readString r = .ok (s, { r with ptr_ := r.ptr_ + (s.length + 5) }) ∧
      r.start_.drop (r.ptr_ + (s.length + 5)) = rest := by
  have h' : r.start_.drop r.ptr_ = encodeInt32 (s.length + 1) ++ (s ++ 0 :: rest) := by
    simp [h, encodeString]
  obtain ⟨e1, e2⟩ := readInt32_encodeInt32 hlen h'
  refine ⟨?_, ?_⟩
  · simp [readString, e1, bind, Except.bind, pure, Except.pure, e2, cstr_append _ _ hs]
    omega
  · have := drop_advance h
    simpa [encodeString, encodeInt32, Nat.add_assoc] using this

theorem readEntry_encodeIntProperty
    (recurse : XComReader → Nat → Except Err (XComPropertyList × XComReader))
    {r : XComReader} {rest n : List Byte} {idx v : Nat} (hn : ∀ b ∈ n, b ≠ 0)
    (hlen : n.length + 1 < 2 ^ 32) (hne : n ≠ ascii "None") (hidx : idx < 2 ^ 32)
    (hv : v < 2 ^ 32) (h : r.start_.drop r.ptr_ = encodeIntProperty n idx v ++ rest) :
    readEntry recurse r
        = .ok (.property n idx (some (.int n v)), { r with ptr_ := r.ptr_ + (n.length + 41) }) ∧
      r.start_.drop (r.ptr_ + (n.length + 41)) = rest := by
  simp only [encodeIntProperty, List.append_assoc] at h
  obtain ⟨e1, h1⟩ := readString_encodeString hn hlen h
  obtain ⟨e2, h2⟩ := readInt32_encodeInt32 (r := { r with ptr_ := r.ptr_ + (n.length + 5) })
    (by decide) h1
  obtain ⟨e3, h3⟩ := readString_encodeString
    (r := { r with ptr_ := r.ptr_ + (n.length + 5) + 4 }) (by decide) (by decide) h2
  obtain ⟨e4, h4⟩ := readInt32_encodeInt32
    (r := { r with ptr_ := r.ptr_ + (n.length + 5) + 4 + ((ascii "IntProperty").length + 5) })
    (by decide) h3
  obtain ⟨e5, h5⟩ := readInt32_encodeInt32
    (r := { r with ptr_ := r.ptr_ + (n.length + 5) + 4 + ((ascii "IntProperty").length + 5) + 4 })
    (by decide) h4
  obtain ⟨e6, h6⟩ := readInt32_encodeInt32
    (r := { r with
      ptr_ := r.ptr_ + (n.length + 5) + 4 + ((ascii "IntProperty").length + 5) + 4 + 4 })
    hidx h5
  obtain ⟨e7, h7⟩ := readInt32_encodeInt32
    (r := { r with
      ptr_ := r.ptr_ + (n.length + 5) + 4 + ((ascii "IntProperty").length + 5) + 4 + 4 + 4 })
    hv h6
  have hlenI : (ascii "IntProperty").length = 11 := by decide
  have hI : ascii "IntProperty" ≠ ascii "ObjectProperty" := by decide
  simp only [hlenI] at e3 e4 e5 e6 e7 h7
  refine ⟨?_, ?_⟩
  · simp only [readEntry, readPropertyValue, readIntProperty, bind, Except.bind, e1, e2, e3, e4,
      e5, e6, e7, hne, hI, if_false, pure, Except.pure, if_true, ne_eq, not_true_eq_false,
      Except.map]
    simp [Nat.add_assoc]
  · simpa [Nat.add_assoc] using h7

theorem readEntry_encodeNone
    (recurse : XComReader → Nat → Except Err (XComPropertyList × XComReader))
    {r : XComReader} {rest : List Byte} (h : r.start_.drop r.ptr_ = encodeNone ++ rest) :
    readEntry recurse r = .ok (.sentinel, { r with ptr_ := r.ptr_ + 13 }) := by
  simp only [encodeNone, List.append_assoc] at h
  obtain ⟨e1, h1⟩ := readString_encodeString (by decide) (by decide) h
  obtain ⟨e2, -⟩ := readInt32_encodeInt32
    (r := { r with ptr_ := r.ptr_ + ((ascii "None").length + 5) }) (by decide) h1
  have hlenN : (ascii "None").length = 4 := by decide
  simp only [hlenN] at e1 e2
  simp only [readEntry, bind, Except.bind, e1, e2, if_true, pure, Except.pure]

theorem encodeIntProperty_length (n : List Byte) (idx v : Nat) :
    (encodeIntProperty n idx v).length = n.length + 41 := by
  have hlenI : (ascii "IntProperty").length = 11 := by decide
  simp [encodeIntProperty, encodeString, encodeInt32, hlenI]

theorem encodeNone_length : encodeNone.length = 13 := by decide

theorem readObjectProperty_tagRead (name : List Byte) (propSize : Nat) (r : XComReader) :
    ∀ prop r', readObjectProperty name propSize r = .ok (prop, r') →
      prop.getKind ≠ .StaticArrayProperty ∧ prop.getName = name := by
  intro prop r' h
  simp only [readObjectProperty, bind, Except.bind, pure, Except.pure] at h
  repeat' split at h
  all_goals first
    | (simp only [Except.ok.injEq, Prod.mk.injEq] at h
       obtain ⟨rfl, rfl⟩ := h
       simp [XComProperty.getKind, XComProperty.getName])
    | cases h

theorem readIntProperty_tagRead (name : List Byte) (propSize : Nat) (r : XComReader) :
    ∀ prop r', readIntProperty name propSize r = .ok (prop, r') →
      prop.getKind ≠ .StaticArrayProperty ∧ prop.getName = name := by
  intro prop r' h
  simp only [readIntProperty, bind, Except.bind, pure, Except.pure, throw, throwThe,
    MonadExceptOf.throw] at h
  repeat' split at h
  all_goals first
    | (simp only [Except.ok.injEq, Prod.mk.injEq] at h
       obtain ⟨rfl, rfl⟩ := h
       simp [XComProperty.getKind, XComProperty.getName])
    | cases h

theorem readByteProperty_tagRead (name : List Byte) (r : XComReader) :
    ∀ prop r', readByteProperty name r = .ok (prop, r') →
      prop.getKind ≠ .StaticArrayProperty ∧ prop.getName = name := by
  intro prop r' h
  simp only [readByteProperty, bind, Except.bind, pure, Except.pure] at h
  repeat' split at h
  all_goals first
    | (simp only [Except.ok.injEq, Prod.mk.injEq] at h
       obtain ⟨rfl, rfl⟩ := h
       simp [XComProperty.getKind, XComProperty.getName])
    | cases h

theorem readBoolProperty_tagRead (name : List Byte) (propSize : Nat) (r : XComReader) :
    ∀ prop r', readBoolProperty name propSize r = .ok (prop, r') →
      prop.getKind ≠ .StaticArrayProperty ∧ prop.getName = name := by
  intro prop r' h
  simp only [readBoolProperty, bind, Except.bind, pure, Except.pure, throw, throwThe,
    MonadExceptOf.throw] at h
  repeat' split at h
  all_goals first
    | (simp only [Except.ok.injEq, Prod.mk.injEq] at h
       obtain ⟨rfl, rfl⟩ := h
       simp [XComProperty.getKind, XComProperty.getName])
    | cases h

theorem readArrayProperty_tagRead (name : List Byte) (propSize : Nat) (r : XComReader) :
    ∀ prop r', readArrayProperty name propSize r = .ok (prop, r') →
      prop.getKind ≠ .StaticArrayProperty ∧ prop.getName = name := by
  intro prop r' h
  simp only [readArrayProperty, bind, Except.bind, pure, Except.pure, throw, throwThe,
    MonadExceptOf.throw] at h
  repeat' split at h
  all_goals first
    | (simp only [Except.ok.injEq, Prod.mk.injEq] at h
       obtain ⟨rfl, rfl⟩ := h
       simp [XComProperty.getKind, XComProperty.getName])
    | cases h

theorem readFloatProperty_tagRead (name : List Byte) (r : XComReader) :
    ∀ prop r', readFloatProperty name r = .ok (prop, r') →
      prop.getKind ≠ .StaticArrayProperty ∧ prop.getName = name := by
  intro prop r' h
  simp only [readFloatProperty, bind, Except.bind, pure, Except.pure] at h
  repeat' split at h
  all_goals first
    | (simp only [Except.ok.injEq, Prod.mk.injEq] at h
       obtain ⟨rfl, rfl⟩ := h
       simp [XComProperty.getKind, XComProperty.getName])
    | cases h

theorem readStructProperty_tagRead
    (recurse : XComReader → Nat → Except Err (XComPropertyList × XComReader))
    (name : List Byte) (propSize : Nat) (r : XComReader) :
    ∀ prop r', readStructProperty recurse name propSize r = .ok (prop, r') →
      prop.getKind ≠ .StaticArrayProperty ∧ prop.getName = name := by
  intro prop r' h
  simp only [readStructProperty, bind, Except.bind, pure, Except.pure, throw, throwThe,
    MonadExceptOf.throw] at h
  repeat' split at h
  all_goals first
    | (simp only [Except.ok.injEq, Prod.mk.injEq] at h
       obtain ⟨rfl, rfl⟩ := h
       simp [XComProperty.getKind, XComProperty.getName])
    | cases h

theorem readStrProperty_tagRead (name : List Byte) (r : XComReader) :
    ∀ prop r', readStrProperty name r = .ok (prop, r') →
      prop.getKind ≠ .StaticArrayProperty ∧ prop.getName = name := by
  intro prop r' h
  simp only [readStrProperty, bind, Except.bind, pure, Except.pure] at h
  repeat' split at h
  all_goals first
    | (simp only [Except.ok.injEq, Prod.mk.injEq] at h
       obtain ⟨rfl, rfl⟩ := h
       simp [XComProperty.getKind, XComProperty.getName])
    | cases h

theorem tagRead_of_map {name : List Byte} {x : Except Err (XComProperty × XComReader)}
    {prop : XComProperty} {r' : XComReader}
    (hx : ∀ prop r', x = .ok (prop, r') →
      prop.getKind ≠ .StaticArrayProperty ∧ prop.getName = name)
    (h : x.map (fun y => (some y.1, y.2)) = .ok (some prop, r')) :
    prop.getKind ≠ .StaticArrayProperty ∧ prop.getName = name := by
  cases x with
  | error e => cases h
  | ok y =>
    simp only [Except.map, Except.ok.injEq, Prod.mk.injEq, Option.some.injEq] at h
    obtain ⟨y1, y2⟩ := y
    obtain ⟨rfl, rfl⟩ := h
    exact hx _ _ rfl

theorem readPropertyValue_kind
    {recurse : XComReader → Nat → Except Err (XComPropertyList × XComReader)}
    {r r' : XComReader} {name propType : List Byte} {propSize : Nat} {prop : XComProperty}
    (h : readPropertyValue recurse name propType propSize r = .ok (some prop, r')) :
    prop.getKind ≠ .StaticArrayProperty ∧ prop.getName = name := by
  unfold readPropertyValue at h
  repeat' split at h
  · exact tagRead_of_map (readObjectProperty_tagRead _ _ _) h
  · exact tagRead_of_map (readIntProperty_tagRead _ _ _) h
  · exact tagRead_of_map (readByteProperty_tagRead _ _) h
  · exact tagRead_of_map (readBoolProperty_tagRead _ _ _) h
  · exact tagRead_of_map (readArrayProperty_tagRead _ _ _) h
  · exact tagRead_of_map (readFloatProperty_tagRead _ _) h
  · exact tagRead_of_map (readStructProperty_tagRead _ _ _ _) h
  · exact tagRead_of_map (readStrProperty_tagRead _ _) h
  · cases h

theorem readEntry_kind {recurse : XComReader → Nat → Except Err (XComPropertyList × XComReader)}
    {r r' : XComReader} {name : List Byte} {arrayIdx : Nat} {prop : XComProperty}
    (h : readEntry recurse r = .ok (.property name arrayIdx (some prop), r')) :
    prop.getKind ≠ .StaticArrayProperty ∧ prop.getName = name := by
  unfold readEntry at h
  simp only [bind, Except.bind, pure, Except.pure] at h
  repeat' split at h
  all_goals first
    | (simp only [Except.ok.injEq, Prod.mk.injEq, Entry.property.injEq] at h
       obtain ⟨⟨rfl, rfl, hp⟩, hr⟩ := h
       rename_i v hv
       obtain ⟨v1, v2⟩ := v
       simp only at hp hr
       subst hp hr
       exact readPropertyValue_kind hv)
    | cases h

theorem readPropertiesLoop_eq_coalesceAll (fuel endpos : Nat) :
    ∀ (properties : XComPropertyList) (r r' : XComReader) (entries : List PropertyEntry),
      serializedEntries fuel endpos r = .ok (entries, r') →
      readPropertiesLoop fuel endpos properties r
        = (coalesceAll properties entries).map (fun l => (l, r')) := by
  induction fuel with
  | zero => intro properties r r' entries h; simp [serializedEntries] at h
  | succ fuel ih =>
    intro properties r r' entries h
    rw [serializedEntries] at h
    rw [readPropertiesLoop]
    split at h
    · rename_i hlt
      rw [if_pos hlt]
      split at h
      · simp at h
      · rename_i r1 he
        simp only [Except.ok.injEq, Prod.mk.injEq] at h
        obtain ⟨rfl, rfl⟩ := h
        simp [he, coalesceAll, Except.map]
      · rename_i name arrayIdx prop r1 he
        split at h
        · simp at h
        · rename_i entries' r2 hrest
          simp only [Except.ok.injEq, Prod.mk.injEq] at h
          obtain ⟨rfl, rfl⟩ := h
          cases prop with
          | none =>
            simp only [he, coalesceAll]
            exact ih properties r1 r2 entries' hrest
          | some p =>
            simp only [he, coalesceAll]
            cases hc : coalesce properties name arrayIdx p with
            | error e => simp [Except.map]
            | ok properties' =>
              simp only []
              exact ih properties' r1 r2 entries' hrest
    · rename_i hlt
      rw [if_neg hlt]
      simp only [Except.ok.injEq, Prod.mk.injEq] at h
      obtain ⟨rfl, rfl⟩ := h
      simp [coalesceAll, Except.map]

theorem serializedEntries_kind (fuel endpos : Nat) :
    ∀ (r r' : XComReader) (entries : List PropertyEntry),
      serializedEntries fuel endpos r = .ok (entries, r') →
      ∀ e ∈ entries, ∀ p, e.prop = some p →
        p.getKind ≠ .StaticArrayProperty ∧ p.getName = e.name := by
  induction fuel with
  | zero => intro r r' entries h; simp [serializedEntries] at h
  | succ fuel ih =>
    intro r r' entries h
    rw [serializedEntries] at h
    split at h
    · split at h
      · cases h
      · simp only [Except.ok.injEq, Prod.mk.injEq] at h
        obtain ⟨rfl, rfl⟩ := h
        simp
      · rename_i name arrayIdx prop r1 he
        split at h
        · cases h
        · rename_i entries' r2 hrest
          simp only [Except.ok.injEq, Prod.mk.injEq] at h
          obtain ⟨rfl, rfl⟩ := h
          intro e he' p hp
          rcases List.mem_cons.1 he' with rfl | hmem
          · simp only at hp
            subst hp
            exact readEntry_kind he
          · exact ih r1 r2 entries' hrest e hmem p hp
    · simp only [Except.ok.injEq, Prod.mk.injEq] at h
      obtain ⟨rfl, rfl⟩ := h
      simp

theorem coalesceAll_append (before after : List PropertyEntry) :
    ∀ (properties properties' : XComPropertyList),
      coalesceAll properties before = .ok properties' →
      coalesceAll properties (before ++ after) = coalesceAll properties' after := by
  induction before with
  | nil =>
    intro properties properties' h
    simp only [coalesceAll, Except.ok.injEq] at h
    subst h
    rfl
  | cons e before ih =>
    intro properties properties' h
    obtain ⟨name, arrayIdx, prop⟩ := e
    cases prop with
    | none =>
      simp only [coalesceAll, List.cons_append] at h ⊢
      exact ih _ _ h
    | some p =>
      simp only [coalesceAll, List.cons_append] at h ⊢
      cases hc : coalesce properties name arrayIdx p with
      | error e => simp [hc] at h
      | ok properties1 =>
        simp only [hc] at h ⊢
        exact ih _ _ h

theorem coalesce_zero (properties : XComPropertyList) (name : List Byte) (prop : XComProperty) :
    coalesce properties name 0 prop = .ok (properties ++ [prop]) := by
  simp [coalesce, pure, Except.pure]

theorem coalesce_onto_plain (properties : XComPropertyList) (name : List Byte)
    (lastProp prop : XComProperty) (hk : lastProp.getKind ≠ .StaticArrayProperty) :
    coalesce (properties ++ [lastProp]) name 1 prop
      = .ok (properties ++ [.staticArray name [lastProp, prop]]) := by
  cases lastProp <;>
    first
    | exact absurd rfl hk
    | simp [coalesce, pure, Except.pure]

theorem coalesce_onto_array (properties : XComPropertyList) (name arrayName : List Byte)
    (elems : XComPropertyList) (prop : XComProperty) (hne : elems.length ≠ 0) :
    coalesce (properties ++ [.staticArray arrayName elems]) name elems.length prop
      = .ok (properties ++ [.staticArray arrayName (elems ++ [prop])]) := by
  simp [coalesce, pure, Except.pure, hne]

theorem coalesceAll_run_tail (name : List Byte) (after : List PropertyEntry)
    (properties : XComPropertyList) :
    ∀ (run elems : XComPropertyList), elems.length ≠ 0 →
      coalesceAll (properties ++ [.staticArray name elems])
          (indexedRun name elems.length run ++ after)
        = coalesceAll (properties ++ [.staticArray name (elems ++ run)]) after := by
  intro run
  induction run with
  | nil => intro elems _; simp [indexedRun]
  | cons p run ih =>
    intro elems hne
    simp only [indexedRun, List.cons_append, coalesceAll,
      coalesce_onto_array properties name name elems p hne]
    have := ih (elems ++ [p]) (by simp)
    simpa using this

theorem coalesceAll_run (name : List Byte) (after : List PropertyEntry)
    (properties : XComPropertyList) (p0 p1 : XComProperty) (more : XComPropertyList)
    (hk : p0.getKind ≠ .StaticArrayProperty) :
    coalesceAll properties (indexedRun name 0 (p0 :: p1 :: more) ++ after)
      = coalesceAll (properties ++ [.staticArray name (p0 :: p1 :: more)]) after := by
  simp only [indexedRun, List.cons_append, coalesceAll, coalesce_zero,
    coalesce_onto_plain properties name p0 p1 hk]
  have := coalesceAll_run_tail name after properties more [p0, p1] (by simp)
  simpa using this

theorem coalesceAll_index_zero (entries : List PropertyEntry) :
    ∀ (properties : XComPropertyList), (∀ e ∈ entries, e.arrayIdx = 0) →
      coalesceAll properties entries = .ok (properties ++ entries.filterMap (fun e => e.prop)) := by
  induction entries with
  | nil => intro properties _; simp [coalesceAll]
  | cons e entries ih =>
    intro properties h
    obtain ⟨name, arrayIdx, prop⟩ := e
    have h0 : arrayIdx = 0 := h ⟨name, arrayIdx, prop⟩ (by simp)
    subst h0
    have hrest : ∀ e ∈ entries, e.arrayIdx = 0 := fun e he => h e (by simp [he])
    cases prop with
    | none => simp [coalesceAll, ih properties hrest]
    | some p => simp [coalesceAll, coalesce_zero, ih _ hrest]

theorem readInt32_error {r : XComReader} {e : Err} (h : readInt32 r = .error e) :
    e = .outOfBounds := by
  unfold readInt32 at h
  split at h
  · cases h
  · simp only [Except.error.injEq] at h
    exact h.symm

theorem readBool_error {r : XComReader} {e : Err} (h : readBool r = .error e) :
    e = .outOfBounds := by
  simp only [readBool, bind, Except.bind, pure, Except.pure] at h
  split at h
  · rename_i h1
    simp only [Except.error.injEq] at h
    exact h ▸ readInt32_error h1
  · cases h

theorem readString_error {r : XComReader} {e : Err} (h : readString r = .error e) :
    e = .outOfBounds := by
  simp only [readString, bind, Except.bind, pure, Except.pure] at h
  split at h
  · rename_i h1
    simp only [Except.error.injEq] at h
    exact h ▸ readInt32_error h1
  · repeat' split at h
    all_goals first
      | (simp only [Except.error.injEq] at h
         exact h.symm)
      | cases h

theorem peek32_lt {start : List Byte} {off v : Nat} (h : peek32 start off = some v) :
    v < 2 ^ 32 := by
  unfold peek32 at h
  split at h
  · rename_i b0 b1 b2 b3 _ _
    simp only [Option.some.injEq, le32val] at h
    have h0 := b0.isLt
    have h1 := b1.isLt
    have h2 := b2.isLt
    have h3 := b3.isLt
    omega
  · cases h

theorem peek32_some_lt_length {start : List Byte} {off v : Nat} (h : peek32 start off = some v) :
    off + 4 ≤ start.length := by
  unfold peek32 at h
  split at h
  · rename_i b0 b1 b2 b3 rest hd
    have := congrArg List.length hd
    simp only [List.length_drop, List.length_cons] at this
    omega
  · cases h

theorem chunkChain_le (start : List Byte) :
    ∀ (sizes : List Nat) (off : Nat), ChunkChain start off sizes → off ≤ start.length := by
  intro sizes
  induction sizes with
  | nil => intro off h; exact le_of_eq h
  | cons s sizes ih =>
    intro off h
    obtain ⟨-, -, c, -, hrest⟩ := h
    have := ih _ hrest
    omega

theorem toInt32_of_lt {v : Nat} (h : v < 2 ^ 31) : toInt32 v = (v : Int) := by
  have h1 : v % 2 ^ 32 = v := Nat.mod_eq_of_lt (by omega)
  simp only [toInt32, h1]
  rw [if_pos h]

theorem getUncompressedSizeLoop_chain (r : XComReader) (hlen : r.length_ = r.start_.length)
    (hsmall : r.start_.length < 2 ^ 32) :
    ∀ (sizes : List Nat) (s off acc fuel : Nat), ChunkChain r.start_ off (s :: sizes) →
      sizes.length < fuel →
      getUncompressedSizeLoop fuel r off acc
        = .ok (toInt32 ((acc + (s :: sizes).sum) % 2 ^ 32)) := by
  intro sizes
  induction sizes with
  | nil =>
    intro s off acc fuel h hfuel
    obtain ⟨hm, hs, c, hc, hend⟩ := h
    simp only [ChunkChain] at hend
    obtain ⟨fuel, rfl⟩ : ∃ f, fuel = f + 1 := ⟨fuel - 1, by omega⟩
    have hstride : chunkStride c = c + 24 := by
      unfold chunkStride
      exact Nat.mod_eq_of_lt (by omega)
    have hnlt : ¬ (off + (c + 24) < r.length_) := by omega
    simp [getUncompressedSizeLoop, hm, hs, hc, hstride, hnlt, toInt32]
  | cons s' sizes ih =>
    intro s off acc fuel h hfuel
    obtain ⟨hm, hs, c, hc, hrest⟩ := h
    obtain ⟨fuel, rfl⟩ : ∃ f, fuel = f + 1 := ⟨fuel - 1, by simp at hfuel; omega⟩
    have hle := chunkChain_le r.start_ _ _ hrest
    have hnext := peek32_some_lt_length hrest.1
    have hstride : chunkStride c = c + 24 := by
      unfold chunkStride
      exact Nat.mod_eq_of_lt (by omega)
    have hlt : off + (c + 24) < r.length_ := by omega
    have hoff : off + (c + 24) = off + 24 + c := by omega
    rw [getUncompressedSizeLoop]
    simp only [hm, hs, hc, hstride, hlt, if_true, ne_eq, not_true_eq_false, if_false]
    rw [hoff, ih s' (off + 24 + c) ((acc + s) % 2 ^ 32) fuel hrest
      (by simp only [List.length_cons] at hfuel ⊢; omega)]
    congr 2
    simp only [List.sum_cons]
    omega

theorem writeAt_ok {buf data : List Byte} {off : Nat} (h : off + data.length ≤ buf.length) :
    writeAt buf off data = .ok (buf.take off ++ data ++ buf.drop (off + data.length)) := by
  simp [writeAt, h]

theorem getUncompressedSizeLoop_bad (lzo : Decompressor) (r : XComReader) (bad v : Nat)
    (hbad : peek32 r.start_ bad = some v) (hv : v ≠ chunkMagic) :
    ∀ (outs : List (List Byte)) (off acc fuel : Nat), ChunksBefore lzo r off outs bad →
      outs.length < fuel → getUncompressedSizeLoop fuel r off acc = .ok (-1) := by
  intro outs
  induction outs with
  | nil =>
    intro off acc fuel h hfuel
    simp only [ChunksBefore] at h
    subst h
    obtain ⟨fuel, rfl⟩ : ∃ f, fuel = f + 1 := ⟨fuel - 1, by omega⟩
    simp [getUncompressedSizeLoop, hbad, hv]
  | cons out outs ih =>
    intro off acc fuel h hfuel
    obtain ⟨hm, c, s, hc, hs, -, -, hlt, hrest⟩ := h
    obtain ⟨fuel, rfl⟩ : ∃ f, fuel = f + 1 := ⟨fuel - 1, by omega⟩
    rw [getUncompressedSizeLoop]
    simp only [hm, hc, hs, hlt, if_true, ne_eq, not_true_eq_false, if_false]
    exact ih _ _ fuel hrest (by simp only [List.length_cons] at hfuel; omega)

theorem getUncompressedDataLoop_bad (lzo : Decompressor) (r : XComReader) (bad v : Nat)
    (hbad : peek32 r.start_ bad = some v) (hv : v ≠ chunkMagic) :
    ∀ (outs : List (List Byte)) (off fuel outp : Nat) (buf : List Byte),
      ChunksBefore lzo r off outs bad → outs.length < fuel →
      outp + outs.flatten.length ≤ buf.length →
      getUncompressedDataLoop lzo fuel r off buf outp
        = .ok (buf.take outp ++ outs.flatten ++ buf.drop (outp + outs.flatten.length)) := by
  intro outs
  induction outs with
  | nil =>
    intro off fuel outp buf h hfuel hroom
    simp only [ChunksBefore] at h
    subst h
    obtain ⟨fuel, rfl⟩ : ∃ f, fuel = f + 1 := ⟨fuel - 1, by omega⟩
    simp [getUncompressedDataLoop, hbad, hv]
  | cons out outs ih =>
    intro off fuel outp buf h hfuel hroom
    obtain ⟨hm, c, s, hc, hs, hlzo, hout, hlt, hrest⟩ := h
    subst hout
    obtain ⟨fuel, rfl⟩ : ∃ f, fuel = f + 1 := ⟨fuel - 1, by omega⟩
    simp only [List.flatten_cons, List.length_append] at hroom
    have hw : writeAt buf outp out
        = .ok (buf.take outp ++ out ++ buf.drop (outp + out.length)) :=
      writeAt_ok (by omega)
    have hroom' : outp + out.length + outs.flatten.length
        ≤ (buf.take outp ++ out ++ buf.drop (outp + out.length)).length := by
      simp only [List.length_append, List.length_take, List.length_drop]
      omega
    have h1 : (buf.take outp ++ out ++ buf.drop (outp + out.length)).take (outp + out.length)
        = buf.take outp ++ out := by
      rw [List.take_append_of_le_length (by simp; omega)]
      rw [List.take_of_length_le (by simp)]
    have h2 : (buf.take outp ++ out ++ buf.drop (outp + out.length)).drop
          (outp + out.length + outs.flatten.length)
        = buf.drop (outp + (out.length + outs.flatten.length)) := by
      have hl : (buf.take outp ++ out).length = outp + out.length := by simp; omega
      rw [show outp + out.length + outs.flatten.length
          = (buf.take outp ++ out).length + outs.flatten.length by rw [hl]]
      rw [List.drop_append, List.drop_drop]
      congr 1
      omega
    rw [getUncompressedDataLoop]
    simp only [hm, hc, hs, hlzo, hw, hlt, if_true, ne_eq, not_true_eq_false, if_false,
      Bool.true_eq_false]
    rw [ih _ fuel (outp + out.length) _ hrest
      (by simp only [List.length_cons] at hfuel; omega) hroom', h1, h2]
    simp [List.append_assoc]

theorem readBytes_of_drop {r : XComReader} {data rest : List Byte} {n : Nat}
    (h : r.start_.drop r.ptr_ = data ++ rest) (hn : data.length = n) :
    readBytes n r = .ok (data, { r with ptr_ := r.ptr_ + n }) := by
  subst hn
  simp [readBytes, h]

theorem mem_of_mem_dropLast {properties : XComPropertyList} {p : XComProperty}
    (h : p ∈ properties.dropLast) : p ∈ properties :=
  List.mem_of_mem_dropLast h

theorem mem_of_getLast? {properties : XComPropertyList} {p : XComProperty}
    (h : properties.getLast? = some p) : p ∈ properties :=
  List.mem_of_getLast?_eq_some h

theorem coalesce_uniform {properties properties' : XComPropertyList} {name : List Byte}
    {arrayIdx : Nat} {prop : XComProperty} {last : Option (List Byte)}
    (hc : coalesce properties name arrayIdx prop = .ok properties')
    (hu : uniformArrays properties)
    (hl : properties.getLast?.map XComProperty.getName = last)
    (hidx : arrayIdx ≠ 0 → last = some name)
    (hk : prop.getKind ≠ .StaticArrayProperty) (hn : prop.getName = name) :
    uniformArrays properties' ∧
      properties'.getLast?.map XComProperty.getName = some name := by
  unfold coalesce at hc
  split at hc
  · simp only [pure, Except.pure, Except.ok.injEq] at hc
    subst hc
    refine ⟨?_, by simp [hn]⟩
    intro n elems hmem e he
    rcases List.mem_append.1 hmem with h | h
    · exact hu n elems h e he
    · simp only [List.mem_singleton] at h
      subst h
      exact absurd rfl hk
  · rename_i hne
    have hlast := hidx hne
    split at hc
    · cases hc
    · rename_i arrayName elems hget
      split at hc
      · simp only [pure, Except.pure, Except.ok.injEq] at hc
        subst hc
        have harr : arrayName = name := by
          rw [hget] at hl
          simp only [Option.map_some', XComProperty.getName] at hl
          rw [hlast] at hl
          exact Option.some.inj hl
        subst harr
        refine ⟨?_, by simp [XComProperty.getName]⟩
        intro n els hmem e he
        rcases List.mem_append.1 hmem with h | h
        · exact hu n els (mem_of_mem_dropLast h) e he
        · simp only [List.mem_singleton, XComProperty.staticArray.injEq] at h
          obtain ⟨rfl, rfl⟩ := h
          rcases List.mem_append.1 he with h' | h'
          · exact hu _ elems (mem_of_getLast? hget) e h'
          · simp only [List.mem_singleton] at h'
            subst h'
            exact hn
      · cases hc
    · rename_i lastProp hnot hget
      split at hc
      · simp only [pure, Except.pure, Except.ok.injEq] at hc
        subst hc
        have hln : lastProp.getName = name := by
          rw [hget] at hl
          simp only [Option.map_some'] at hl
          rw [hlast] at hl
          exact Option.some.inj hl
        refine ⟨?_, by simp [XComProperty.getName]⟩
        intro n els hmem e he
        rcases List.mem_append.1 hmem with h | h
        · exact hu n els (mem_of_mem_dropLast h) e he
        · simp only [List.mem_singleton, XComProperty.staticArray.injEq] at h
          obtain ⟨rfl, rfl⟩ := h
          simp only [List.mem_cons, List.mem_singleton, List.not_mem_nil, or_false] at he
          rcases he with rfl | rfl
          · exact hln
          · exact hn
      · cases hc

theorem coalesceAll_uniform (entries : List PropertyEntry) :
    ∀ (properties properties' : XComPropertyList) (last : Option (List Byte)),
      coalesceAll properties entries = .ok properties' →
      uniformArrays properties →
      properties.getLast?.map XComProperty.getName = last →
      namesFollow last entries →
      (∀ e ∈ entries, ∀ p, e.prop = some p →
        p.getKind ≠ .StaticArrayProperty ∧ p.getName = e.name) →
      uniformArrays properties' := by
  induction entries with
  | nil =>
    intro properties properties' last hc hu _ _ _
    simp only [coalesceAll, Except.ok.injEq] at hc
    exact hc ▸ hu
  | cons e entries ih =>
    intro properties properties' last hc hu hl hf hk
    obtain ⟨name, arrayIdx, prop⟩ := e
    have hk' : ∀ e ∈ entries, ∀ p, e.prop = some p →
        p.getKind ≠ .StaticArrayProperty ∧ p.getName = e.name :=
      fun e he => hk e (by simp [he])
    cases prop with
    | none =>
      simp only [coalesceAll] at hc
      simp only [namesFollow] at hf
      exact ih properties properties' last hc hu hl hf hk'
    | some p =>
      simp only [coalesceAll] at hc
      simp only [namesFollow] at hf
      have hp := hk ⟨name, arrayIdx, some p⟩ (by simp) p rfl
      cases hco : coalesce properties name arrayIdx p with
      | error err => simp [hco] at hc
      | ok properties1 =>
        simp only [hco] at hc
        obtain ⟨hu1, hl1⟩ := coalesce_uniform hco hu hl hf.1 hp.1 hp.2
        exact ih properties1 properties' (some name) hc hu1 hl1 hf.2 hk'

theorem getUncompressedSizeLoop_wrapping :
    ∀ fuel acc : Nat,
      getUncompressedSizeLoop fuel ⟨sampleWrappingChunk, 0, 1048⟩ 1024 acc
        = .error .outOfFuel := by
  have hm : peek32 sampleWrappingChunk 1024 = some chunkMagic := by decide
  have hc : peek32 sampleWrappingChunk (1024 + 8) = some 4294967272 := by decide
  have hs : peek32 sampleWrappingChunk (1024 + 12) = some 0 := by decide
  have hst : chunkStride 4294967272 = 0 := by decide
  intro fuel
  induction fuel with
  | zero => intro acc; rfl
  | succ fuel ih =>
    intro acc
    rw [getUncompressedSizeLoop]
    simp only [hm, hc, hs, hst, ne_eq, not_true_eq_false, if_false, Nat.add_zero]
    rw [if_pos (by decide)]
    exact ih _

theorem getUncompressedDataLoop_wrapping :
    ∀ (fuel : Nat) (buf : List Byte),
      getUncompressedDataLoop storedLzo fuel ⟨sampleWrappingChunk, 0, 1048⟩ 1024 buf 0
        = .error .outOfFuel := by
  have hm : peek32 sampleWrappingChunk 1024 = some chunkMagic := by decide
  have hc : peek32 sampleWrappingChunk (1024 + 8) = some 4294967272 := by decide
  have hs : peek32 sampleWrappingChunk (1024 + 12) = some 0 := by decide
  have hst : chunkStride 4294967272 = 0 := by decide
  have hsrc : (sampleWrappingChunk.drop (1024 + 24)).take 4294967272 = [] := by decide
  intro fuel
  induction fuel with
  | zero => intro buf; rfl
  | succ fuel ih =>
    intro buf
    have hw : writeAt buf 0 [] = .ok buf := by simp [writeAt]
    rw [getUncompressedDataLoop]
    simp only [hm, hc, hs, hst, hsrc, storedLzo, hw, ne_eq, not_true_eq_false, if_false,
      Nat.add_zero, Bool.true_eq_false, List.length_nil]
    rw [if_pos (by decide)]
    exact ih _

theorem getUncompressedSizeLoop_halts (r : XComReader)
    (hsize : ∀ off, Visited r off → ∀ c, peek32 r.start_ (off + 8) = some c →
      c + 24 < 2 ^ 32) :
    ∀ (fuel p acc : Nat), Visited r p → (r.length_ - p) / 24 + 1 ≤ fuel →
      getUncompressedSizeLoop fuel r p acc ≠ .error .outOfFuel := by
  intro fuel
  induction fuel with
  | zero => intro p acc _ h; omega
  | succ fuel ih =>
    intro p acc hvis hfuel
    rw [getUncompressedSizeLoop]
    split
    · simp
    · rename_i magic hm
      split
      · simp
      · rename_i hmagic
        have hmagic' : magic = chunkMagic := by simpa using hmagic
        subst hmagic'
        split
        · rename_i c s hc hs
          have hst : chunkStride c = c + 24 :=
            Nat.mod_eq_of_lt (hsize p hvis c hc)
          simp only []
          split
          · rename_i hlt
            refine ih _ _ (Visited.next p c hvis hm hc hlt) ?_
            rw [hst] at hlt ⊢
            omega
          · simp
        · simp

theorem getUncompressedDataLoop_halts (lzo : Decompressor) (r : XComReader)
    (hsize : ∀ off, Visited r off → ∀ c, peek32 r.start_ (off + 8) = some c →
      c + 24 < 2 ^ 32) :
    ∀ (fuel p outp : Nat) (buf : List Byte), Visited r p → (r.length_ - p) / 24 + 1 ≤ fuel →
      getUncompressedDataLoop lzo fuel r p buf outp ≠ .error .outOfFuel := by
  intro fuel
  induction fuel with
  | zero => intro p outp buf _ h; omega
  | succ fuel ih =>
    intro p outp buf hvis hfuel
    rw [getUncompressedDataLoop]
    split
    · simp
    · rename_i magic hm
      split
      · simp
      · rename_i hmagic
        have hmagic' : magic = chunkMagic := by simpa using hmagic
        subst hmagic'
        split
        · rename_i c s hc hs
          have hst : chunkStride c = c + 24 :=
            Nat.mod_eq_of_lt (hsize p hvis c hc)
          simp only []
          split
          · rename_i e hw
            unfold writeAt at hw
            split at hw
            · cases hw
            · simp only [Except.error.injEq] at hw
              subst hw
              simp
          · split
            · simp
            · split
              · simp
              · split
                · rename_i hlt
                  refine ih _ _ _ (Visited.next p c hvis hm hc hlt) ?_
                  rw [hst] at hlt ⊢
                  omega
                · simp
        · simp

theorem visited_sampleTwoChunks :
    ∀ off, Visited ⟨sampleTwoChunks, 0, 1075⟩ off → off = 1024 ∨ off = 1051 := by
  have h1 : peek32 sampleTwoChunks (1024 + 8) = some 3 := by decide
  have h2 : peek32 sampleTwoChunks (1051 + 8) = some 0 := by decide
  intro off h
  induction h with
  | first => exact Or.inl rfl
  | next off c _ _ hc hlt ih =>
    rcases ih with rfl | rfl
    · simp only at hc
      rw [h1] at hc
      obtain rfl := Option.some.inj hc
      exact Or.inr (by decide)
    · simp only at hc hlt
      rw [h2] at hc
      obtain rfl := Option.some.inj hc
      exact absurd hlt (by decide)

theorem sizes_sampleTwoChunks :
    ∀ off, Visited ⟨sampleTwoChunks, 0, 1075⟩ off →
      ∀ c, peek32 sampleTwoChunks (off + 8) = some c → c + 24 < 2 ^ 32 := by
  have h1 : peek32 sampleTwoChunks (1024 + 8) = some 3 := by decide
  have h2 : peek32 sampleTwoChunks (1051 + 8) = some 0 := by decide
  intro off hvis c hc
  rcases visited_sampleTwoChunks off hvis with rfl | rfl
  · rw [h1] at hc
    obtain rfl := Option.some.inj hc
    decide
  · rw [h2] at hc
    obtain rfl := Option.some.inj hc
    decide

theorem Follows.trans {k m : Nat} {r r1 r2 : XComReader} (h1 : Follows k r r1)
    (h2 : Follows m r1 r2) : Follows (k + m) r r2 := by
  obtain ⟨a1, b1, c1, d1⟩ := h1
  obtain ⟨a2, b2, c2, d2⟩ := h2
  refine ⟨a2.trans a1, b2.trans b1, by omega, ?_⟩
  rw [a1] at d2
  omega

theorem Follows.mono {k m : Nat} {r r' : XComReader} (hkm : m ≤ k) (h : Follows k r r') :
    Follows m r r' := by
  obtain ⟨a, b, c, d⟩ := h
  exact ⟨a, b, by omega, d⟩

theorem Follows.refl (r : XComReader) : Follows 0 r r :=
  ⟨rfl, rfl, by omega, by omega⟩

theorem reads_mono {α : Type} {E : Err → Prop} {k m : Nat} {r : XComReader}
    {x : Except Err (α × XComReader)} (hkm : m ≤ k) (h : Reads E k r x) : Reads E m r x := by
  cases x with
  | error e => exact h
  | ok v => exact Follows.mono hkm h

theorem reads_pure {α : Type} (E : Err → Prop) (r : XComReader) (a : α) :
    Reads E 0 r (pure (a, r) : Except Err (α × XComReader)) :=
  Follows.refl r

theorem reads_bind {α β : Type} {E : Err → Prop} {k m n : Nat} {r : XComReader}
    {x : Except Err (α × XComReader)} {f : α × XComReader → Except Err (β × XComReader)}
    (hn : n ≤ k + m) (hx : Reads E k r x)
    (hf : ∀ a r1, x = .ok (a, r1) → Follows k r r1 → Reads E m r1 (f (a, r1))) :
    Reads E n r (x >>= f) := by
  cases x with
  | error e => exact hx
  | ok v =>
    obtain ⟨a, r1⟩ := v
    have h1 : Follows k r r1 := hx
    have h2 := hf a r1 rfl h1
    show Reads E n r (f (a, r1))
    cases hfa : f (a, r1) with
    | error e => rw [hfa] at h2; exact h2
    | ok w =>
      rw [hfa] at h2
      exact Follows.mono hn (Follows.trans h1 h2)

theorem reads_after {α : Type} {E : Err → Prop} {k m : Nat} {r r1 : XComReader}
    {x : Except Err (α × XComReader)} (h1 : Follows k r r1) (hx : Reads E m r1 x) :
    Reads E 0 r x := by
  cases x with
  | error e => exact hx
  | ok v => exact Follows.mono (Nat.zero_le _) (Follows.trans h1 hx)

theorem reads_of_eq {α : Type} {E : Err → Prop} {k : Nat} {r r' : XComReader} {a : α}
    {x : Except Err (α × XComReader)} (hx : Reads E k r x) (h : x = .ok (a, r')) :
    Follows k r r' := by
  subst h
  exact hx

theorem readInt32_reads (E : Err → Prop) (hE : ∀ e, e ≠ .outOfFuel → E e) (r : XComReader) :
    Reads E 4 r (readInt32 r) := by
  unfold readInt32
  split
  · rename_i v hv
    have := peek32_some_lt_length hv
    exact ⟨rfl, rfl, by simp, by simp only; omega⟩
  · exact hE _ (by decide)

theorem readFloat_reads (E : Err → Prop) (hE : ∀ e, e ≠ .outOfFuel → E e) (r : XComReader) :
    Reads E 4 r (readFloat r) := by
  unfold readFloat
  split
  · rename_i v hv
    have := peek32_some_lt_length hv
    exact ⟨rfl, rfl, by simp, by simp only; omega⟩
  · exact hE _ (by decide)

theorem cstr_length_lt {bs str : List Byte} (h : cstr bs = some str) :
    str.length < bs.length := by
  induction bs generalizing str with
  | nil => simp [cstr] at h
  | cons b bs ih =>
    unfold cstr at h
    split at h
    · simp only [Option.some.injEq] at h
      subst h
      simp
    · cases hc : cstr bs with
      | none => simp [hc] at h
      | some s =>
        simp only [hc, Option.map_some', Option.some.injEq] at h
        subst h
        have := ih hc
        simp only [List.length_cons]
        omega

theorem readString_reads (E : Err → Prop) (hE : ∀ e, e ≠ .outOfFuel → E e) (r : XComReader) :
    Reads E 4 r (readString r) := by
  unfold readString
  refine reads_bind (m := 0) (Nat.le_refl _) (readInt32_reads E hE r) ?_
  intro len r1 _ _
  show Reads E 0 r1 (if len = 0 then _ else _)
  split
  · exact reads_pure E r1 _
  · split
    · exact hE _ (by decide)
    · rename_i str hstr
      split
      · exact reads_pure E r1 _
      · rename_i hlen
        have hlt := cstr_length_lt hstr
        simp only [List.length_drop] at hlt
        have hlen' : str.length = len - 1 := by
          by_contra hne
          exact hlen hne
        exact ⟨rfl, rfl, by simp, by simp only; omega⟩

theorem readBool_reads (E : Err → Prop) (hE : ∀ e, e ≠ .outOfFuel → E e) (r : XComReader) :
    Reads E 4 r (readBool r) := by
  unfold readBool
  refine reads_bind (m := 0) (Nat.le_refl _) (readInt32_reads E hE r) ?_
  intro v r1 _ _
  exact reads_pure E r1 _

theorem readBytes_reads (E : Err → Prop) (hE : ∀ e, e ≠ .outOfFuel → E e) (n : Nat)
    (r : XComReader) : Reads E n r (readBytes n r) := by
  unfold readBytes
  simp only
  split
  · rename_i hlen
    simp only [List.length_take, List.length_drop] at hlen
    exact ⟨rfl, rfl, by simp, by simp only; omega⟩
  · exact hE _ (by decide)

theorem reads_guard {α : Type} {E : Err → Prop} {k : Nat} {r : XComReader} {c : Prop}
    [Decidable c] {e : Err} {f : PUnit → Except Err (α × XComReader)} (he : E e)
    (hrest : Reads E k r (f PUnit.unit)) :
    Reads E k r (if c then throw e >>= f else pure PUnit.unit >>= f) := by
  by_cases hc : c
  · simp only [hc, if_true]
    exact he
  · simp only [hc, if_false]
    exact hrest

theorem reads_bind_value {α β : Type} {E : Err → Prop} {k : Nat} {r : XComReader}
    {x : Except Err β} {f : β → Except Err (α × XComReader)}
    (hx : ∀ e, x = .error e → E e) (hf : ∀ b, Reads E k r (f b)) :
    Reads E k r (x >>= f) := by
  cases x with
  | error e => exact hx e rfl
  | ok b => exact hf b

theorem readObjectProperty_reads (E : Err → Prop) (hE : ∀ e, e ≠ .outOfFuel → E e)
    (name : List Byte) (propSize : Nat) (r : XComReader) :
    Reads E 0 r (readObjectProperty name propSize r) := by
  unfold readObjectProperty
  refine reads_bind (m := 0) (Nat.zero_le _) (readBytes_reads E hE _ r) ?_
  intro a r1 _ _
  exact reads_pure E r1 _

theorem readIntProperty_reads (E : Err → Prop) (hE : ∀ e, e ≠ .outOfFuel → E e)
    (name : List Byte) (propSize : Nat) (r : XComReader) :
    Reads E 0 r (readIntProperty name propSize r) := by
  unfold readIntProperty
  simp only []
  refine reads_guard (hE Err.assertion (by decide)) ?_
  refine reads_bind (m := 0) (Nat.zero_le _) (readInt32_reads E hE r) ?_
  intro a r1 _ _
  exact reads_pure E r1 _

theorem readByteProperty_reads (E : Err → Prop) (hE : ∀ e, e ≠ .outOfFuel → E e)
    (name : List Byte) (r : XComReader) :
    Reads E 0 r (readByteProperty name r) := by
  unfold readByteProperty
  refine reads_bind (m := 0) (Nat.zero_le _) (readString_reads E hE r) ?_
  intro a1 r1 _ _
  refine reads_bind (m := 0) (Nat.zero_le _) (readInt32_reads E hE r1) ?_
  intro a2 r2 _ _
  refine reads_bind (m := 0) (Nat.zero_le _) (readString_reads E hE r2) ?_
  intro a3 r3 _ _
  refine reads_bind (m := 0) (Nat.zero_le _) (readInt32_reads E hE r3) ?_
  intro a4 r4 _ _
  exact reads_pure E r4 _

theorem readBoolProperty_reads (E : Err → Prop) (hE : ∀ e, e ≠ .outOfFuel → E e)
    (name : List Byte) (propSize : Nat) (r : XComReader) :
    Reads E 0 r (readBoolProperty name propSize r) := by
  unfold readBoolProperty
  simp only []
  refine reads_guard (hE Err.assertion (by decide)) ?_
  refine reads_bind (m := 0) (Nat.zero_le _) (readBytes_reads E hE 1 r) ?_
  intro a r1 _ _
  exact reads_pure E r1 _

theorem readArrayProperty_reads (E : Err → Prop) (hE : ∀ e, e ≠ .outOfFuel → E e)
    (name : List Byte) (propSize : Nat) (r : XComReader) :
    Reads E 0 r (readArrayProperty name propSize r) := by
  unfold readArrayProperty
  refine reads_bind (m := 0) (Nat.zero_le _) (readInt32_reads E hE r) ?_
  intro arrayBound r1 _ _
  have hb := readBytes_reads E hE (propSize - 4) r1
  simp only [bind, Except.bind, pure, Except.pure, throw, throwThe, MonadExceptOf.throw]
  repeat' split
  all_goals first
    | exact Follows.refl _
    | exact hE Err.divideByZero (by decide)
    | (rename_i h
       rw [h] at hb
       first
         | exact hb
         | exact Follows.mono (Nat.zero_le _) hb)
    | (rename_i h _
       rw [h] at hb
       first
         | exact hb
         | exact Follows.mono (Nat.zero_le _) hb)
    | (rename_i h _ _
       rw [h] at hb
       first
         | exact hb
         | exact Follows.mono (Nat.zero_le _) hb)

theorem readFloatProperty_reads (E : Err → Prop) (hE : ∀ e, e ≠ .outOfFuel → E e)
    (name : List Byte) (r : XComReader) :
    Reads E 0 r (readFloatProperty name r) := by
  unfold readFloatProperty
  refine reads_bind (m := 0) (Nat.zero_le _) (readFloat_reads E hE r) ?_
  intro a r1 _ _
  exact reads_pure E r1 _

theorem readStrProperty_reads (E : Err → Prop) (hE : ∀ e, e ≠ .outOfFuel → E e)
    (name : List Byte) (r : XComReader) :
    Reads E 0 r (readStrProperty name r) := by
  unfold readStrProperty
  refine reads_bind (m := 0) (Nat.zero_le _) (readString_reads E hE r) ?_
  intro a r1 _ _
  exact reads_pure E r1 _

theorem readStructProperty_reads (E : Err → Prop) (hE : ∀ e, e ≠ .outOfFuel → E e)
    (recurse : XComReader → Nat → Except Err (XComPropertyList × XComReader))
    (name : List Byte) (propSize : Nat) (r : XComReader)
    (hrec : ∀ r2 d, Follows 8 r r2 → Reads E 0 r2 (recurse r2 d)) :
    Reads E 8 r (readStructProperty recurse name propSize r) := by
  unfold readStructProperty
  refine reads_bind (m := 4) (by omega) (readString_reads E hE r) ?_
  intro structName r1 _ h1
  refine reads_bind (m := 0) (by omega) (readInt32_reads E hE r1) ?_
  intro innerUnknown r2 _ h2
  have h12 : Follows 8 r r2 := Follows.trans h1 h2
  show Reads E 0 r2 (if structName = ascii "Vector2D" then _ else _)
  split
  · simp only []
    refine reads_guard (hE Err.assertion (by decide)) ?_
    refine reads_bind (m := 0) (Nat.zero_le _) (readBytes_reads E hE 8 r2) ?_
    intro a r3 _ _
    exact reads_pure E r3 _
  · split
    · simp only []
      refine reads_guard (hE Err.assertion (by decide)) ?_
      refine reads_bind (m := 0) (Nat.zero_le _) (readBytes_reads E hE 12 r2) ?_
      intro a r3 _ _
      exact reads_pure E r3 _
    · refine reads_bind (m := 0) (Nat.zero_le _) (hrec r2 propSize h12) ?_
      intro a r3 _ _
      exact reads_pure E r3 _

theorem reads_map {E : Err → Prop} {k : Nat} {r : XComReader}
    {x : Except Err (XComProperty × XComReader)} (hx : Reads E k r x) :
    Reads E k r (x.map (fun y => (some y.1, y.2))) := by
  cases x with
  | error e => exact hx
  | ok v => exact hx

theorem readPropertyValue_reads (E : Err → Prop) (hE : ∀ e, e ≠ .outOfFuel → E e)
    (recurse : XComReader → Nat → Except Err (XComPropertyList × XComReader))
    (name propType : List Byte) (propSize : Nat) (r : XComReader)
    (hrec : ∀ r2 d, Follows 8 r r2 → Reads E 0 r2 (recurse r2 d)) :
    Reads E 0 r (readPropertyValue recurse name propType propSize r) := by
  unfold readPropertyValue
  repeat' split
  · exact reads_map (readObjectProperty_reads E hE _ _ _)
  · exact reads_map (readIntProperty_reads E hE _ _ _)
  · exact reads_map (readByteProperty_reads E hE _ _)
  · exact reads_map (readBoolProperty_reads E hE _ _ _)
  · exact reads_map (readArrayProperty_reads E hE _ _ _)
  · exact reads_map (readFloatProperty_reads E hE _ _)
  · exact reads_map (reads_mono (Nat.zero_le _)
      (readStructProperty_reads E hE recurse _ _ _ hrec))
  · exact reads_map (readStrProperty_reads E hE _ _)
  · exact Follows.refl r

theorem readEntry_reads (E : Err → Prop) (hE : ∀ e, e ≠ .outOfFuel → E e)
    (recurse : XComReader → Nat → Except Err (XComPropertyList × XComReader))
    (r : XComReader)
    (hrec : ∀ r2 d, Follows 32 r r2 → Reads E 0 r2 (recurse r2 d)) :
    Reads E 8 r (readEntry recurse r) := by
  unfold readEntry
  refine reads_bind (m := 4) (by omega) (readString_reads E hE r) ?_
  intro name r1 _ h1
  refine reads_bind (m := 0) (by omega) (readInt32_reads E hE r1) ?_
  intro unknown1 r2 _ h2
  show Reads E 0 r2 (if name = ascii "None" then _ else _)
  split
  · exact reads_pure E r2 _
  · refine reads_bind (m := 0) (Nat.zero_le _) (readString_reads E hE r2) ?_
    intro propType r3 _ h3
    refine reads_bind (m := 0) (Nat.zero_le _) (readInt32_reads E hE r3) ?_
    intro unknown2 r4 _ h4
    refine reads_bind (m := 0) (Nat.zero_le _) (readInt32_reads E hE r4) ?_
    intro propSize r5 _ h5
    refine reads_bind (m := 0) (Nat.zero_le _) (readInt32_reads E hE r5) ?_
    intro arrayIdx r6 _ h6
    have h16 : Follows 24 r r6 :=
      Follows.trans (Follows.trans (Follows.trans (Follows.trans (Follows.trans h1 h2) h3) h4)
        h5) h6
    refine reads_bind (k := 0) (m := 0) (Nat.zero_le _)
      (readPropertyValue_reads E hE recurse name propType propSize r6
        (fun r7 d h7 => hrec r7 d (Follows.trans h16 h7))) ?_
    intro prop r7 _ _
    exact reads_pure E r7 _

theorem coalesce_error {properties : XComPropertyList} {name : List Byte} {arrayIdx : Nat}
    {prop : XComProperty} {e : Err} (h : coalesce properties name arrayIdx prop = .error e) :
    e ≠ .outOfFuel := by
  unfold coalesce at h
  repeat' split at h
  all_goals (cases h <;> decide)

theorem readPropertiesLoop_reads (E : Err → Prop) (hE : ∀ e, e ≠ .outOfFuel → E e) :
    ∀ (fuel endpos : Nat) (properties : XComPropertyList) (r : XComReader),
      (E .outOfFuel ∨ r.start_.length - r.ptr_ < fuel) →
      Reads E 0 r (readPropertiesLoop fuel endpos properties r) := by
  intro fuel
  induction fuel with
  | zero =>
    intro endpos properties r h
    rcases h with h | h
    · exact h
    · omega
  | succ fuel ih =>
    intro endpos properties r h
    have hnext : ∀ (k : Nat) (r2 : XComReader), 0 < k → Follows k r r2 →
        (E .outOfFuel ∨ r2.start_.length - r2.ptr_ < fuel) := by
      intro k r2 hk hf
      rcases h with h | h
      · exact Or.inl h
      · obtain ⟨hs, -, hp, hm⟩ := hf
        rw [hs]
        exact Or.inr (by omega)
    have hentry := readEntry_reads E hE
      (fun r dataLen => readPropertiesLoop fuel (r.ptr_ + dataLen) [] r) r
      (fun r2 d hf => ih _ _ r2 (hnext 32 r2 (by omega) hf))
    rw [readPropertiesLoop]
    split
    · split
      · rename_i e he
        rw [he] at hentry
        exact hentry
      · rename_i r1 he
        rw [he] at hentry
        exact Follows.mono (Nat.zero_le _) hentry
      · rename_i name arrayIdx r1 he
        rw [he] at hentry
        have hf : Follows 8 r r1 := hentry
        exact reads_after hf (ih endpos properties r1 (hnext 8 r1 (by omega) hf))
      · rename_i name arrayIdx prop r1 he
        rw [he] at hentry
        have hf : Follows 8 r r1 := hentry
        split
        · rename_i e hc
          exact hE e (coalesce_error hc)
        · rename_i properties' hc
          exact reads_after hf (ih endpos properties' r1 (hnext 8 r1 (by omega) hf))
    · exact Follows.refl r

theorem entryAt_iff (n : Nat) (r : XComReader) (entry : Entry) (r' : XComReader) :
    EntryAt n r entry r' ↔ readEntry (readProperties n) r = .ok (entry, r') := by
  unfold EntryAt
  exact Iff.rfl

theorem readPropertiesLoop_run :
    ∀ (fuel endpos : Nat) (properties properties' : XComPropertyList) (r r' : XComReader),
      readPropertiesLoop fuel endpos properties r = .ok (properties', r') →
      LoopRun endpos r r' := by
  intro fuel
  induction fuel with
  | zero =>
    intro endpos properties properties' r r' h
    simp [readPropertiesLoop] at h
  | succ fuel ih =>
    intro endpos properties properties' r r' h
    rw [readPropertiesLoop] at h
    split at h
    · rename_i hlt
      split at h
      · cases h
      · rename_i r1 he
        simp only [Except.ok.injEq, Prod.mk.injEq] at h
        obtain ⟨-, rfl⟩ := h
        exact LoopRun.sentinel fuel r r1 hlt ((entryAt_iff _ _ _ _).2 he)
      · rename_i name arrayIdx r1 he
        exact LoopRun.entry fuel r r1 r' name arrayIdx none hlt ((entryAt_iff _ _ _ _).2 he)
          (ih _ _ _ _ _ h)
      · rename_i name arrayIdx prop r1 he
        split at h
        · cases h
        · exact LoopRun.entry fuel r r1 r' name arrayIdx (some prop) hlt
            ((entryAt_iff _ _ _ _).2 he) (ih _ _ _ _ _ h)
    · rename_i hge
      simp only [Except.ok.injEq, Prod.mk.injEq] at h
      obtain ⟨-, rfl⟩ := h
      exact LoopRun.bound r (by omega)

theorem readEntry_follows {n : Nat} {r r' : XComReader} {entry : Entry}
    (h : readEntry (readProperties n) r = .ok (entry, r')) : Follows 8 r r' :=
  reads_of_eq
    (readEntry_reads (fun _ => True) (fun _ _ => trivial) (readProperties n) r
      (fun r2 d _ => readPropertiesLoop_reads (fun _ => True) (fun _ _ => trivial) n
        (r2.ptr_ + d) [] r2 (Or.inl trivial))) h

theorem loopRun_last {endpos : Nat} {r r' : XComReader} (h : LoopRun endpos r r') :
    (r' = r ∧ endpos ≤ r.ptr_) ∨
    ∃ (n : Nat) (r0 : XComReader) (entry : Entry),
      r0.start_ = r.start_ ∧ r.ptr_ ≤ r0.ptr_ ∧ r0.ptr_ < endpos ∧
      readEntry (readProperties n) r0 = .ok (entry, r') ∧
      (entry = .sentinel ∨ endpos ≤ r'.ptr_) := by
  induction h with
  | bound r hge => exact Or.inl ⟨rfl, hge⟩
  | sentinel n r r' hlt he =>
    rw [entryAt_iff] at he
    exact Or.inr ⟨n, r, .sentinel, rfl, Nat.le_refl _, hlt, he, Or.inl rfl⟩
  | entry n r r1 r' name arrayIdx prop hlt he _ ih =>
    rw [entryAt_iff] at he
    have hf := readEntry_follows he
    rcases ih with ⟨rfl, hge⟩ | ⟨m, r0, entry, hs, hp, hlt0, he0, hstop⟩
    · exact Or.inr ⟨n, r, _, rfl, Nat.le_refl _, hlt, he, Or.inr hge⟩
    · refine Or.inr ⟨m, r0, entry, hs.trans hf.1, ?_, hlt0, he0, hstop⟩
      have := hf.2.2.1
      omega

/-- The two cases of `readCheckpointProperties` for a property block of declared
length `P` whose property list consumes `c <= P` bytes: when `c = P` no padding
byte is consumed and line 240 is not reached; when `c < P` the `P - c` bytes
after the list are consumed and `padSize = P - c` is assigned.  In both cases
the cursor is then `P` bytes after the start of the block. -/
theorem readCheckpointProperties_cases (fuel P c : Nat) (r r1 : XComReader)
    (props : XComPropertyList) (hP : P < 2 ^ 32)
    (hprops : readProperties fuel r P = .ok (props, r1)) (hc : r1.ptr_ = r.ptr_ + c)
    (hle : c ≤ P) :
    (c = P →
      readCheckpointProperties fuel P r = .ok ((props, none), r1) ∧ r1.ptr_ = r.ptr_ + P) ∧
    (c < P → ∀ (padding : List Byte) (r2 : XComReader),
      readBytes (P - c) r1 = .ok (padding, r2) →
      readCheckpointProperties fuel P r = .ok ((props, some (P - c)), r2) ∧
        r2.ptr_ = r.ptr_ + P) := by
  have hmod : (r1.ptr_ - r.ptr_) % 2 ^ 32 = c := by
    rw [hc, Nat.add_sub_cancel_left]
    exact Nat.mod_eq_of_lt (by omega)
  refine ⟨?_, ?_⟩
  · intro hcP
    subst hcP
    refine ⟨?_, hc⟩
    simp only [readCheckpointProperties, bind, Except.bind, hprops, hmod, pure, Except.pure,
      Nat.lt_irrefl, if_false]
  · intro hlt padding r2 hpad
    refine ⟨?_, ?_⟩
    · simp only [readCheckpointProperties, bind, Except.bind, hprops, hmod, hlt, hpad, pure,
        Except.pure, if_true]
    · unfold readBytes at hpad
      simp only at hpad
      split at hpad
      · simp only [Except.ok.injEq, Prod.mk.injEq] at hpad
        rw [← hpad.2]
        simp only [hc]
        omega
      · cases hpad

/-- The index tests of lines 194-212 on a result list that is not empty: a
recognised property with a non-zero array index `i` is accepted exactly when
the last entry of the list is a static array whose size is `i` (the property is
then added to it) or the last entry is a plain property and `i = 1` (the two
then form a new static array); in every other case the index assertion fails
and `readProperties` returns no list. -/
theorem coalesce_index_cases (fuel endpos : Nat) (r r1 : XComReader)
    (properties : XComPropertyList) (lastProp prop : XComProperty) (name : List Byte) (i : Nat)
    (hlt : r.ptr_ < endpos)
    (hentry : readEntry (fun r dataLen => readPropertiesLoop fuel (r.ptr_ + dataLen) [] r) r
      = .ok (.property name i (some prop), r1))
    (hi : i ≠ 0) (hlast : properties.getLast? = some lastProp) :
    (∀ arrayName elems, lastProp = .staticArray arrayName elems → elems.length = i →
      coalesce properties name i prop
          = .ok (properties.dropLast ++ [.staticArray arrayName (elems ++ [prop])]) ∧
        readPropertiesLoop (fuel + 1) endpos properties r
          = readPropertiesLoop fuel endpos
              (properties.dropLast ++ [.staticArray arrayName (elems ++ [prop])]) r1) ∧
    (lastProp.getKind ≠ .StaticArrayProperty → i = 1 →
      coalesce properties name i prop
          = .ok (properties.dropLast ++ [.staticArray name [lastProp, prop]]) ∧
        readPropertiesLoop (fuel + 1) endpos properties r
          = readPropertiesLoop fuel endpos
              (properties.dropLast ++ [.staticArray name [lastProp, prop]]) r1) ∧
    (¬ ((∃ arrayName elems, lastProp = .staticArray arrayName elems ∧ elems.length = i) ∨
        (lastProp.getKind ≠ .StaticArrayProperty ∧ i = 1)) →
      coalesce properties name i prop = .error .assertion ∧
        readPropertiesLoop (fuel + 1) endpos properties r = .error .assertion) := by
  have hloop : ∀ res, coalesce properties name i prop = res →
      readPropertiesLoop (fuel + 1) endpos properties r
        = match res with
          | .error e => .error e
          | .ok properties' => readPropertiesLoop fuel endpos properties' r1 := by
    intro res hres
    rw [readPropertiesLoop, if_pos hlt, hentry]
    simp only [hres]
  refine ⟨?_, ?_, ?_⟩
  · intro arrayName elems hsa hlen
    subst hsa
    have hc : coalesce properties name i prop
        = .ok (properties.dropLast ++ [.staticArray arrayName (elems ++ [prop])]) := by
      simp [coalesce, hi, hlast, hlen, pure, Except.pure]
    exact ⟨hc, hloop _ hc⟩
  · intro hk h1
    have hc : coalesce properties name i prop
        = .ok (properties.dropLast ++ [.staticArray name [lastProp, prop]]) := by
      cases lastProp <;>
        first
        | exact absurd rfl hk
        | simp [coalesce, hi, hlast, h1, pure, Except.pure]
    exact ⟨hc, hloop _ hc⟩
  · intro hnot
    have hc : coalesce properties name i prop = .error .assertion := by
      cases lastProp with
      | staticArray arrayName elems =>
        have hlen : ¬ i = elems.length := by
          intro h
          exact hnot (Or.inl ⟨arrayName, elems, rfl, h.symm⟩)
        simp [coalesce, hi, hlast, hlen]
      | _ =>
        have h1 : ¬ i = 1 := by
          intro h
          exact hnot (Or.inr ⟨by simp [XComProperty.getKind], h⟩)
        simp [coalesce, hi, hlast, h1]
    exact ⟨hc, hloop _ hc⟩

/-- When every visited chunk has a compressed size `c` with `c + 24 < 2^32`, so
that the 32-bit sum `compressedSize + 24` does not wrap, each step of the walk
moves the offset forward by `c + 24 >= 24` bytes, and the walks of
`getUncompressedSize` and `getUncompressedData` come to an end within
`(length_ - 1024)/24 + 1` chunks. -/
theorem chunk_walk_halts (lzo : Decompressor) (r : XComReader) (buf : List Byte)
    (fuel : Nat)
    (hsize : ∀ off, Visited r off → ∀ c, peek32 r.start_ (off + 8) = some c →
      c + 24 < 2 ^ 32)
    (hfuel : (r.length_ - 1024) / 24 + 1 ≤ fuel) :
    (∀ off c, Visited r off → peek32 r.start_ (off + 8) = some c →
      chunkStride c = c + 24 ∧ 24 ≤ chunkStride c) ∧
    getUncompressedSize fuel r ≠ .error .outOfFuel ∧
    getUncompressedData lzo fuel r buf ≠ .error .outOfFuel := by
  refine ⟨?_, ?_, ?_⟩
  · intro off c hvis hc
    have hst : chunkStride c = c + 24 := Nat.mod_eq_of_lt (hsize off hvis c hc)
    exact ⟨hst, by omega⟩
  · exact getUncompressedSizeLoop_halts r hsize fuel 1024 0 Visited.first hfuel
  · exact getUncompressedDataLoop_halts lzo r hsize fuel 1024 0 buf Visited.first hfuel

theorem chunk_walk_halts_sampleTwoChunks :
    getUncompressedSize 3 ⟨sampleTwoChunks, 0, 1075⟩ ≠ .error .outOfFuel ∧
    getUncompressedData storedLzo 3 ⟨sampleTwoChunks, 0, 1075⟩ [] ≠ .error .outOfFuel :=
  (chunk_walk_halts storedLzo ⟨sampleTwoChunks, 0, 1075⟩ [] 3 sizes_sampleTwoChunks
    (by decide)).2

/-! ## The claims -/

/-- C1: when the length field at the cursor decodes to 0, `readString` returns
the empty string and leaves the cursor 4 bytes further; when it decodes to
`L > 0` and is followed by `L - 1` non-zero content bytes and a zero byte,
`readString` returns exactly those content bytes and leaves the cursor
`L + 4` bytes further. -/
theorem readString_decodes (r r1 : XComReader) (L : Nat) (hL : readInt32 r = .ok (L, r1)) :
    (L = 0 → readString r = .ok ([], { r with ptr_ := r.ptr_ + 4 })) ∧
    (0 < L → ∀ content rest : List Byte, content.length = L - 1 → (∀ b ∈ content, b ≠ 0) →
      r.start_.drop (r.ptr_ + 4) = content ++ 0 :: rest →
      readString r = .ok (content, { r with ptr_ := r.ptr_ + (L + 4) })) := by
  obtain ⟨-, rfl⟩ := readInt32_ok hL
  constructor
  · intro h0
    subst h0
    simp [readString, hL, bind, Except.bind, pure, Except.pure]
  · intro hpos content rest hlen hnz hbuf
    have hne : L ≠ 0 := by omega
    simp [readString, hL, bind, Except.bind, pure, Except.pure, hne, hbuf, cstr_append _ _ hnz,
      hlen]
    omega

theorem readString_decodes_witness :
    readString ⟨[0, 0, 0, 0, 9], 0, 5⟩ = .ok ([], ⟨[0, 0, 0, 0, 9], 4, 5⟩) ∧
    readString ⟨[7, 3, 0, 0, 0, 72, 80, 0, 9], 1, 9⟩
      = .ok ([72, 80], ⟨[7, 3, 0, 0, 0, 72, 80, 0, 9], 8, 9⟩) :=
  ⟨(readString_decodes ⟨[0, 0, 0, 0, 9], 0, 5⟩ ⟨[0, 0, 0, 0, 9], 4, 5⟩ 0 (by decide)).1 rfl,
   (readString_decodes ⟨[7, 3, 0, 0, 0, 72, 80, 0, 9], 1, 9⟩
      ⟨[7, 3, 0, 0, 0, 72, 80, 0, 9], 5, 9⟩ 3 (by decide)).2 (by decide) [72, 80] [9] (by decide) (by decide) (by decide)⟩

/-- C2, as stated, fails: on the length field 4 followed by `"HP"` and a zero
byte (the first zero byte is at position 2, not 3) `readString` returns the
sentinel with the cursor 4 bytes further, not 4 + 4. -/
theorem readString_mismatch_counterexample :
    readInt32 ⟨[4, 0, 0, 0, 72, 80, 0, 9], 0, 8⟩
      = .ok (4, ⟨[4, 0, 0, 0, 72, 80, 0, 9], 4, 8⟩) ∧
    cstr [72, 80, 0, 9] = some [72, 80] ∧
    readString ⟨[4, 0, 0, 0, 72, 80, 0, 9], 0, 8⟩
      = .ok (errorString, ⟨[4, 0, 0, 0, 72, 80, 0, 9], 4, 8⟩) ∧
    readString ⟨[4, 0, 0, 0, 72, 80, 0, 9], 0, 8⟩
      ≠ .ok (errorString, ⟨[4, 0, 0, 0, 72, 80, 0, 9], 0 + (4 + 4), 8⟩) := by
  decide

/-- C2, amended: when the length field decodes to `L > 0` and the first zero
byte after it is not at position `L - 1`, `readString` returns the sentinel
`"<error>"` and the cursor stays right after the length field: it has moved by
4 bytes, not by `L + 4`. -/
theorem readString_mismatch (r r1 : XComReader) (L : Nat) (str : List Byte)
    (hL : readInt32 r = .ok (L, r1)) (hpos : 0 < L)
    (hstr : cstr (r.start_.drop (r.ptr_ + 4)) = some str) (hmis : str.length ≠ L - 1) :
    readString r = .ok (errorString, { r with ptr_ := r.ptr_ + 4 }) := by
  obtain ⟨-, rfl⟩ := readInt32_ok hL
  have hne : L ≠ 0 := by omega
  simp [readString, hL, bind, Except.bind, pure, Except.pure, hne, hstr, hmis]

theorem readString_mismatch_witness :
    readString ⟨[4, 0, 0, 0, 72, 80, 0, 9], 0, 8⟩
      = .ok (errorString, ⟨[4, 0, 0, 0, 72, 80, 0, 9], 4, 8⟩) :=
  readString_mismatch ⟨[4, 0, 0, 0, 72, 80, 0, 9], 0, 8⟩ ⟨[4, 0, 0, 0, 72, 80, 0, 9], 4, 8⟩ 4
    [72, 80] (by decide) (by decide) (by decide) (by decide)

/-- C3: when the serialized list holds, after the entries `before`, a run of
k >= 2 consecutive recognised properties `p0, p1, ...` that carry the same name
`X` and the array indices 0, 1, ..., k-1, `readProperties` puts exactly one
entry for the run into its list: a static array named `X` that holds the k
properties in serialization order, right after the entries `ps` that `before`
gave.  The entries `after` the run are then processed from that list; when
they all carry the index 0 (in particular when there are none) the result is
`ps`, that one static array, and the properties of `after`.  Three properties
with the indices 0, 1, 2 are the case `more = [p2]`. -/
theorem readProperties_static_array (fuel : Nat) (r r' : XComReader) (dataLen : Nat)
    (before after : List PropertyEntry) (X : List Byte) (p0 p1 : XComProperty)
    (more ps : XComPropertyList)
    (hread : serializedEntries fuel (r.ptr_ + dataLen) r
      = .ok (before ++ indexedRun X 0 (p0 :: p1 :: more) ++ after, r'))
    (hbefore : coalesceAll [] before = .ok ps) :
    readProperties fuel r dataLen
        = (coalesceAll (ps ++ [.staticArray X (p0 :: p1 :: more)]) after).map (fun l => (l, r')) ∧
      ((∀ e ∈ after, e.arrayIdx = 0) →
        readProperties fuel r dataLen
          = .ok (ps ++ [.staticArray X (p0 :: p1 :: more)]
              ++ after.filterMap (fun e => e.prop), r')) := by
  have hk : p0.getKind ≠ .StaticArrayProperty :=
    (serializedEntries_kind fuel _ r r' _ hread ⟨X, 0, some p0⟩ (by simp [indexedRun]) p0 rfl).1
  have hmain : readProperties fuel r dataLen
      = (coalesceAll (ps ++ [.staticArray X (p0 :: p1 :: more)]) after).map
          (fun l => (l, r')) := by
    rw [readProperties, readPropertiesLoop_eq_coalesceAll fuel _ [] r r' _ hread,
      List.append_assoc, coalesceAll_append before _ [] ps hbefore,
      coalesceAll_run X after ps p0 p1 more hk]
  refine ⟨hmain, ?_⟩
  intro hafter
  rw [hmain, coalesceAll_index_zero after _ hafter]
  rfl

theorem readProperties_static_array_witness :
    readProperties 5 ⟨sampleRun, 0, 181⟩ 181
      = .ok ([.int (ascii "W") 9,
              .staticArray (ascii "X")
                [.int (ascii "X") 5, .int (ascii "X") 6, .int (ascii "X") 7]],
          ⟨sampleRun, 181, 181⟩) :=
  (readProperties_static_array 5 ⟨sampleRun, 0, 181⟩ ⟨sampleRun, 181, 181⟩ 181
    [⟨ascii "W", 0, some (.int (ascii "W") 9)⟩] []
    (ascii "X") (.int (ascii "X") 5) (.int (ascii "X") 6) [.int (ascii "X") 7]
    [.int (ascii "W") 9] rfl rfl).2 (by simp)

/-- C4: when every entry of the serialized list is of a recognised type and
carries the array index 0, `readProperties` returns one top-level entry for
each serialized property, in serialization order, and none of them is a static
array. -/
theorem readProperties_no_coalescing (fuel : Nat) (r r' : XComReader) (dataLen : Nat)
    (entries : List PropertyEntry)
    (hread : serializedEntries fuel (r.ptr_ + dataLen) r = .ok (entries, r'))
    (hidx : ∀ e ∈ entries, e.arrayIdx = 0) (hrec : ∀ e ∈ entries, e.prop ≠ none) :
    ∃ properties : XComPropertyList,
      readProperties fuel r dataLen = .ok (properties, r') ∧
      properties.map some = entries.map (fun e => e.prop) ∧
      properties.map XComProperty.getName = entries.map (fun e => e.name) ∧
      ∀ p ∈ properties, p.getKind ≠ .StaticArrayProperty := by
  have hkind := serializedEntries_kind fuel _ r r' _ hread
  refine ⟨entries.filterMap (fun e => e.prop), ?_, ?_, ?_, ?_⟩
  · rw [readProperties, readPropertiesLoop_eq_coalesceAll fuel _ [] r r' _ hread,
      coalesceAll_index_zero entries [] hidx]
    rfl
  · clear hread hidx hkind
    induction entries with
    | nil => rfl
    | cons e entries ih =>
      have he := hrec e (by simp)
      have hrest : ∀ e ∈ entries, e.prop ≠ none := fun e he => hrec e (by simp [he])
      cases hp : e.prop with
      | none => exact absurd hp he
      | some p => simp [List.filterMap_cons, hp, ih hrest]
  · clear hread hidx
    induction entries with
    | nil => rfl
    | cons e entries ih =>
      have he := hrec e (by simp)
      have hrest : ∀ e ∈ entries, e.prop ≠ none := fun e he => hrec e (by simp [he])
      have hk : ∀ e' ∈ entries, ∀ p, e'.prop = some p →
          p.getKind ≠ .StaticArrayProperty ∧ p.getName = e'.name :=
        fun e' he' => hkind e' (by simp [he'])
      cases hp : e.prop with
      | none => exact absurd hp he
      | some p =>
        have := (hkind e (by simp) p hp).2
        simp [List.filterMap_cons, hp, ih hrest hk, this]
  · intro p hp
    obtain ⟨e, he, hpe⟩ := List.mem_filterMap.1 hp
    exact (hkind e he p hpe).1

theorem readProperties_no_coalescing_witness :
    ∃ properties : XComPropertyList,
      readProperties 5 ⟨samplePair, 0, 97⟩ 97 = .ok (properties, ⟨samplePair, 97, 97⟩) ∧
      properties.map some = [some (.int (ascii "X") 1), some (.int (ascii "Y") 2)] ∧
      properties.map XComProperty.getName = [ascii "X", ascii "Y"] ∧
      ∀ p ∈ properties, p.getKind ≠ .StaticArrayProperty :=
  readProperties_no_coalescing 5 ⟨samplePair, 0, 97⟩ ⟨samplePair, 97, 97⟩ 97
    [⟨ascii "X", 0, some (.int (ascii "X") 1)⟩, ⟨ascii "Y", 0, some (.int (ascii "Y") 2)⟩]
    rfl (by simp) (by simp)

/-- C5: for a name `n` other than `"None"` without a zero byte (and short
enough for its length field) and a 32-bit value `v`, `readProperties` run on
the encoding of the one entry (`n`, reserved 0, `"IntProperty"`, reserved 0,
size 4, index 0, `v`) followed by the `"None"` name and its reserved field, with
the encoding's length as bound, returns the one-element list holding the Int
property `n` with value `v` and leaves the cursor at the end of the encoding.
The encoding may sit anywhere in the buffer (`pre`, `post`); two units of fuel
are enough. -/
theorem readProperties_single_int (n : List Byte) (v fuel length_ : Nat) (pre post : List Byte)
    (hne : n ≠ ascii "None") (hn : ∀ b ∈ n, b ≠ 0) (hlen : n.length + 1 < 2 ^ 32)
    (hv : v < 2 ^ 32) :
    readProperties (fuel + 2)
        ⟨pre ++ (encodeIntProperty n 0 v ++ encodeNone) ++ post, pre.length, length_⟩
        (encodeIntProperty n 0 v ++ encodeNone).length
      = .ok ([.int n v],
          ⟨pre ++ (encodeIntProperty n 0 v ++ encodeNone) ++ post,
           pre.length + (encodeIntProperty n 0 v ++ encodeNone).length, length_⟩) := by
  have h0 : (pre ++ (encodeIntProperty n 0 v ++ encodeNone) ++ post).drop pre.length
      = encodeIntProperty n 0 v ++ (encodeNone ++ post) := by
    simp [List.append_assoc]
  simp only [readProperties, List.length_append, encodeIntProperty_length, encodeNone_length]
  rw [readPropertiesLoop]
  obtain ⟨e1, h1⟩ := readEntry_encodeIntProperty
    (fun r dataLen => readPropertiesLoop (fuel + 1) (r.ptr_ + dataLen) [] r)
    (r := ⟨pre ++ (encodeIntProperty n 0 v ++ encodeNone) ++ post, pre.length, length_⟩)
    hn hlen hne (by decide) hv h0
  have e2 := readEntry_encodeNone
    (fun r dataLen => readPropertiesLoop fuel (r.ptr_ + dataLen) [] r)
    (r := ⟨pre ++ (encodeIntProperty n 0 v ++ encodeNone) ++ post, pre.length + (n.length + 41),
      length_⟩) h1
  have c1 : pre.length < pre.length + (n.length + 41 + 13) := by omega
  have c2 : pre.length + (n.length + 41) < pre.length + (n.length + 41 + 13) := by omega
  rw [if_pos c1]
  simp only [e1, coalesce, if_true, pure, Except.pure]
  rw [readPropertiesLoop]
  simp only [c2, if_true, e2]
  simp [Nat.add_assoc]

theorem readProperties_single_int_witness :
    readProperties 2 ⟨encodeIntProperty (ascii "HP") 0 5 ++ encodeNone, 0, 56⟩ 56
      = .ok ([.int (ascii "HP") 5], ⟨encodeIntProperty (ascii "HP") 0 5 ++ encodeNone, 56, 56⟩) :=
  readProperties_single_int (ascii "HP") 5 0 56 [] [] (by decide) (by decide) (by decide)
    (by decide)

/-- C6: when the four bytes at the cursor decode to a version other than 0x10,
`readHeader` returns the zero-initialised header and has read nothing but
the version: the cursor is 4 bytes further.  When they decode to 0x10, either
a later read of the header runs off the end of the buffer, or `readHeader`
returns a header whose version field is 0x10. -/
theorem readHeader_version (r r1 : XComReader) (v : Nat) (hv : readInt32 r = .ok (v, r1)) :
    (v ≠ 0x10 → readHeader r = .ok ({}, { r with ptr_ := r.ptr_ + 4 })) ∧
    (v = 0x10 →
      readHeader r = .error .outOfBounds ∨
      ∃ hdr r', readHeader r = .ok (hdr, r') ∧ hdr.version = 0x10) := by
  obtain ⟨-, rfl⟩ := readInt32_ok hv
  constructor
  · intro hne
    simp [readHeader, hv, bind, Except.bind, pure, Except.pure, hne]
  · intro h16
    subst h16
    simp only [readHeader, hv, bind, Except.bind, pure, Except.pure, ne_eq, not_true_eq_false,
      if_false]
    repeat' split
    all_goals first
      | (right; exact ⟨_, _, rfl, rfl⟩)
      | (left
         rename_i e he
         first
           | rw [readInt32_error he]
           | rw [readString_error he]
           | rw [readBool_error he])

theorem readHeader_version_witness :
    readHeader ⟨sampleBadHeader, 0, 8⟩ = .ok ({}, ⟨sampleBadHeader, 4, 8⟩) ∧
    (readHeader ⟨sampleHeader, 0, 54⟩ = .error .outOfBounds ∨
      ∃ hdr r', readHeader ⟨sampleHeader, 0, 54⟩ = .ok (hdr, r') ∧ hdr.version = 0x10) ∧
    readHeader ⟨sampleHeader, 0, 54⟩
      = .ok ({ version := 0x10, uncompressedSize := 64, gameNumber := 7, saveNumber := 3,
               saveDescription := ascii "A", ironman := true }, ⟨sampleHeader, 54, 54⟩) :=
  ⟨(readHeader_version ⟨sampleBadHeader, 0, 8⟩ ⟨sampleBadHeader, 4, 8⟩ 0x11 (by decide)).1
      (by decide),
   (readHeader_version ⟨sampleHeader, 0, 54⟩ ⟨sampleHeader, 4, 54⟩ 0x10 (by decide)).2 rfl,
   by decide⟩

/-- C7: the behaviour of the code on a raw save whose version field is 0x11
and whose body is a well-formed container.  `readHeader` returns the zero
header, and `getSaveData` goes on all the same: it decompresses the body and
returns the document read from it, under the zero header. -/
theorem getSaveData_bad_version :
    readHeader ⟨sampleSave 0x11, 0, 1229⟩ = .ok ({}, ⟨sampleSave 0x11, 4, 1229⟩) ∧
    getSaveData storedLzo (fun _ => 0) 3 ⟨sampleSave 0x11, 0, 1229⟩
      = .ok (sampleDocument {}, ⟨sampleBody, 181, 181⟩) :=
  ⟨rfl, rfl⟩

/-- C8, as stated, fails: the container `sampleLargeChunk` is a well-formed
chain of one chunk whose uncompressed size is `2^31`, and `getUncompressedSize`
returns `-2^31` on it, not the sum `2^31`. -/
theorem getUncompressedSize_sum_counterexample :
    ChunkChain sampleLargeChunk 1024 [2 ^ 31] ∧
    getUncompressedSize 1 ⟨sampleLargeChunk, 0, 1048⟩ = .ok (-2147483648) ∧
    getUncompressedSize 1 ⟨sampleLargeChunk, 0, 1048⟩ ≠ .ok (([2 ^ 31] : List Nat).sum : Int) :=
  ⟨⟨by decide, by decide, 0, by decide, by unfold ChunkChain; decide⟩, by decide, by decide⟩

/-- C8, amended: for a container shorter than `2^32` bytes that is a
well-formed chain of N >= 1 chunks starting at offset 1024 and ending at the
length of the buffer, `getUncompressedSize` returns the sum of the declared
uncompressed sizes reduced modulo `2^32` and read as a signed 32-bit integer;
this is the sum itself whenever the sum is below `2^31`. -/
theorem getUncompressedSize_sum (r : XComReader) (sizes : List Nat) (fuel : Nat)
    (hlen : r.length_ = r.start_.length) (hsmall : r.start_.length < 2 ^ 32)
    (hne : sizes ≠ []) (hchain : ChunkChain r.start_ 1024 sizes) (hfuel : sizes.length ≤ fuel) :
    getUncompressedSize fuel r = .ok (toInt32 (sizes.sum % 2 ^ 32)) ∧
    (sizes.sum < 2 ^ 31 → getUncompressedSize fuel r = .ok (sizes.sum : Int)) := by
  cases sizes with
  | nil => exact absurd rfl hne
  | cons s sizes =>
    have hmain := getUncompressedSizeLoop_chain r hlen hsmall sizes s 1024 0 fuel hchain
      (by simp only [List.length_cons] at hfuel; omega)
    simp only [Nat.zero_add] at hmain
    refine ⟨hmain, ?_⟩
    intro hsum
    rw [getUncompressedSize, hmain, Nat.mod_eq_of_lt (by omega), toInt32_of_lt hsum]

theorem getUncompressedSize_sum_witness :
    getUncompressedSize 2 ⟨sampleTwoChunks, 0, 1075⟩
      = .ok ((([5, 7] : List Nat).sum : Nat) : Int) :=
  (getUncompressedSize_sum ⟨sampleTwoChunks, 0, 1075⟩ [5, 7] 2 (by decide) (by decide)
    (by decide)
    ⟨by decide, by decide, 3, by decide, by decide, by decide, 0, by decide,
      by unfold ChunkChain; decide⟩
    (by decide)).2 (by decide)

/-- C9: when the walk from offset 1024 passes k-1 chunks with valid magic
numbers (each of which decompresses into its declared size and is followed by
a further chunk inside the container) and then finds a 4-byte value other than
0x9E2A83C1 at the start of chunk k, `getUncompressedSize` returns -1, and
`getUncompressedData`, given an output buffer with room for the k-1 outputs,
leaves exactly those outputs at its start and the rest of it untouched.
Nothing is assumed about the size fields of chunk k or about anything after
its magic number, so neither result depends on them. -/
theorem chunk_magic_mismatch (lzo : Decompressor) (r : XComReader) (outs : List (List Byte))
    (bad v fuel : Nat) (buf : List Byte)
    (hchain : ChunksBefore lzo r 1024 outs bad)
    (hbad : peek32 r.start_ bad = some v) (hv : v ≠ chunkMagic)
    (hfuel : outs.length < fuel) (hroom : outs.flatten.length ≤ buf.length) :
    getUncompressedSize fuel r = .ok (-1) ∧
    getUncompressedData lzo fuel r buf = .ok (outs.flatten ++ buf.drop outs.flatten.length) := by
  refine ⟨getUncompressedSizeLoop_bad lzo r bad v hbad hv outs 1024 0 fuel hchain hfuel, ?_⟩
  have := getUncompressedDataLoop_bad lzo r bad v hbad hv outs 1024 fuel 0 buf hchain hfuel
    (by omega)
  simpa [getUncompressedData] using this

theorem chunk_magic_mismatch_witness :
    getUncompressedSize 3 ⟨sampleBadThirdChunk, 0, 1102⟩ = .ok (-1) ∧
    getUncompressedData storedLzo 3 ⟨sampleBadThirdChunk, 0, 1102⟩ [9, 9, 9, 9, 9, 9, 9]
      = .ok [1, 2, 3, 4, 5, 9, 9] :=
  chunk_magic_mismatch storedLzo ⟨sampleBadThirdChunk, 0, 1102⟩ [[1, 2, 3], [4, 5]] 1077
    0x9f2a83c1 3 [9, 9, 9, 9, 9, 9, 9]
    ⟨by decide, 3, 3, by decide, by decide, by decide, by decide, by decide,
      by decide, 2, 2, by decide, by decide, by decide, by decide, by decide,
      by unfold ChunksBefore; decide⟩
    (by decide) (by decide) (by decide) (by decide)

/-- C10: the behaviour of the code on a raw save with a valid header in which
the four bytes at offset 1024 are not the magic number.  The size pass returns
-1; `getSaveData` stores it in a `uint32_t`, where it is 4294967295 and not below
zero, allocates that many bytes, and reads the actor table and a checkpoint
chunk from the fresh memory (all zero here): when it returns, the reader is on
the new buffer, 16 bytes into it. -/
theorem getSaveData_size_failure (lzo : Decompressor) :
    (readHeader ⟨sampleBadFirstChunk, 0, 1028⟩).map (fun x => x.1.version) = .ok 0x10 ∧
    getUncompressedSize 2 ⟨sampleBadFirstChunk, 54, 1028⟩ = .ok (-1) ∧
    getSaveData lzo (fun _ => 0) 2 ⟨sampleBadFirstChunk, 0, 1028⟩
      = .ok ({}, ⟨allocate (fun _ => 0) 4294967295 0, 16, 4294967295⟩) :=
  ⟨by decide, by decide, rfl⟩

/-- C11: the behaviour of the code on two `ArrayProperty` entries.  With
declared size 8 and element count 0 the stride `(propSize - 4)/arrayBound` is a
division by zero, since only `propSize == 4` is tested; with declared size 0 and
element count 1 no payload is stored and the stride is computed from the
wrapped difference `2^32 - 4`. -/
theorem readArrayProperty_stride :
    readProperties 2 ⟨sampleEmptyArray, 0, 61⟩ 61 = .error .divideByZero ∧
    readProperties 2 ⟨sampleShortArray, 0, 57⟩ 57
      = .ok ([.array (ascii "A") none 1 4294967292], ⟨sampleShortArray, 57, 57⟩) :=
  ⟨rfl, rfl⟩

/-- C16: when the type tag of an entry is none of the eight recognised tags,
the entry yields no property and the cursor stays right after the entry's
array-index field, whatever the declared size and the array index are; the
loop of `readProperties` then goes on from there with its list unchanged. -/
theorem readProperties_unknown_type
    (recurse : XComReader → Nat → Except Err (XComPropertyList × XComReader))
    (r r1 r2 r3 r4 r5 r6 : XComReader) (name propType : List Byte)
    (unknown1 unknown2 propSize arrayIdx : Nat)
    (h1 : readString r = .ok (name, r1)) (h2 : readInt32 r1 = .ok (unknown1, r2))
    (hname : name ≠ ascii "None")
    (h3 : readString r2 = .ok (propType, r3)) (h4 : readInt32 r3 = .ok (unknown2, r4))
    (h5 : readInt32 r4 = .ok (propSize, r5)) (h6 : readInt32 r5 = .ok (arrayIdx, r6))
    (htag : propType ∉ recognisedTags) :
    readEntry recurse r = .ok (.property name arrayIdx none, r6) ∧
    r6.ptr_ = r5.ptr_ + 4 ∧
    ∀ (fuel endpos : Nat) (properties : XComPropertyList), r.ptr_ < endpos →
      readPropertiesLoop (fuel + 1) endpos properties r
        = readPropertiesLoop fuel endpos properties r6 := by
  simp only [recognisedTags, List.mem_cons, List.mem_singleton, not_or, List.not_mem_nil,
    or_false] at htag
  obtain ⟨t1, t2, t3, t4, t5, t6, t7, t8⟩ := htag
  have hval : ∀ rec : XComReader → Nat → Except Err (XComPropertyList × XComReader),
      readPropertyValue rec name propType propSize r6 = .ok (none, r6) := by
    intro rec
    simp only [readPropertyValue, t1, t2, t3, t4, t5, t6, t7, t8, if_false]
  have hentry : ∀ rec : XComReader → Nat → Except Err (XComPropertyList × XComReader),
      readEntry rec r = .ok (.property name arrayIdx none, r6) := by
    intro rec
    simp only [readEntry, bind, Except.bind, h1, h2, hname, if_false, h3, h4, h5, h6, hval rec,
      pure, Except.pure]
  refine ⟨hentry recurse, (readInt32_ok h6).2 ▸ rfl, ?_⟩
  intro fuel endpos properties hlt
  rw [readPropertiesLoop, if_pos hlt, hentry]

/-- A property list holding an entry `U` of the unknown type `"FooProperty"`
(declared size 3, array index 7, payload 1, 2, 3): evaluation of the entry. -/
theorem readProperties_unknown_type_witness :
    readEntry (readProperties 0) ⟨encodeEntryHeader (ascii "U") (ascii "FooProperty") 3 7
        ++ [1, 2, 3], 0, 41⟩
      = .ok (.property (ascii "U") 7 none,
          ⟨encodeEntryHeader (ascii "U") (ascii "FooProperty") 3 7 ++ [1, 2, 3], 38, 41⟩) :=
  (readProperties_unknown_type (readProperties 0)
    ⟨encodeEntryHeader (ascii "U") (ascii "FooProperty") 3 7 ++ [1, 2, 3], 0, 41⟩
    ⟨encodeEntryHeader (ascii "U") (ascii "FooProperty") 3 7 ++ [1, 2, 3], 6, 41⟩
    ⟨encodeEntryHeader (ascii "U") (ascii "FooProperty") 3 7 ++ [1, 2, 3], 10, 41⟩
    ⟨encodeEntryHeader (ascii "U") (ascii "FooProperty") 3 7 ++ [1, 2, 3], 26, 41⟩
    ⟨encodeEntryHeader (ascii "U") (ascii "FooProperty") 3 7 ++ [1, 2, 3], 30, 41⟩
    ⟨encodeEntryHeader (ascii "U") (ascii "FooProperty") 3 7 ++ [1, 2, 3], 34, 41⟩
    ⟨encodeEntryHeader (ascii "U") (ascii "FooProperty") 3 7 ++ [1, 2, 3], 38, 41⟩
    (ascii "U") (ascii "FooProperty") 0 0 3 7
    (by decide) (by decide) (by decide) (by decide) (by decide) (by decide) (by decide)
    (by decide)).1

/-- C17: in the `StructProperty` branch, after the struct name and its reserved
field have been read (the cursor is then at `r2`): for the struct name
`"Vector2D"` the declared size must be 8 (anything else fails the assertion) and
the property holds the next 8 bytes as they are, the cursor moving by 8; for
`"Vector"` the same with 12; for every other struct name the property holds the
list that `readProperties` returns when it is called at `r2` with the declared
size as bound, and the cursor is where that call leaves it. -/
theorem readStructProperty_cases (fuel : Nat) (name structName : List Byte)
    (propSize innerUnknown : Nat) (r r1 r2 : XComReader)
    (h1 : readString r = .ok (structName, r1)) (h2 : readInt32 r1 = .ok (innerUnknown, r2)) :
    (structName = ascii "Vector2D" →
      (propSize ≠ 8 →
        readStructProperty (readProperties fuel) name propSize r = .error .assertion) ∧
      (propSize = 8 → ∀ data rest : List Byte, data.length = 8 →
        r2.start_.drop r2.ptr_ = data ++ rest →
        readStructProperty (readProperties fuel) name propSize r
          = .ok (.structNative name structName data 8, { r2 with ptr_ := r2.ptr_ + 8 }))) ∧
    (structName = ascii "Vector" →
      (propSize ≠ 12 →
        readStructProperty (readProperties fuel) name propSize r = .error .assertion) ∧
      (propSize = 12 → ∀ data rest : List Byte, data.length = 12 →
        r2.start_.drop r2.ptr_ = data ++ rest →
        readStructProperty (readProperties fuel) name propSize r
          = .ok (.structNative name structName data 12, { r2 with ptr_ := r2.ptr_ + 12 }))) ∧
    (structName ≠ ascii "Vector2D" → structName ≠ ascii "Vector" →
      readStructProperty (readProperties fuel) name propSize r
        = (readProperties fuel r2 propSize).map
            (fun x => (.struct name structName x.1, x.2))) := by
  refine ⟨?_, ?_, ?_⟩
  · intro hs
    subst hs
    refine ⟨?_, ?_⟩
    · intro hne
      simp [readStructProperty, bind, Except.bind, h1, h2, hne, throw, throwThe,
        MonadExceptOf.throw]
    · intro h8 data rest hlen hdrop
      subst h8
      simp [readStructProperty, bind, Except.bind, h1, h2, pure, Except.pure,
        readBytes_of_drop hdrop hlen]
  · intro hs
    subst hs
    have hne2 : ascii "Vector" ≠ ascii "Vector2D" := by decide
    refine ⟨?_, ?_⟩
    · intro hne
      simp [readStructProperty, bind, Except.bind, h1, h2, hne, hne2, throw, throwThe,
        MonadExceptOf.throw]
    · intro h12 data rest hlen hdrop
      subst h12
      simp [readStructProperty, bind, Except.bind, h1, h2, hne2, pure, Except.pure,
        readBytes_of_drop hdrop hlen]
  · intro hn1 hn2
    simp only [readStructProperty, bind, Except.bind, h1, h2, hn1, hn2, if_false, pure,
      Except.pure, Except.map]

theorem readStructProperty_cases_witness :
    readStructProperty (readProperties 2) (ascii "P") 8 ⟨sampleVector2D, 0, 25⟩
      = .ok (.structNative (ascii "P") (ascii "Vector2D") [1, 2, 3, 4, 5, 6, 7, 8] 8,
          ⟨sampleVector2D, 25, 25⟩) ∧
    readStructProperty (readProperties 2) (ascii "P") 12 ⟨sampleVector, 0, 27⟩
      = .ok (.structNative (ascii "P") (ascii "Vector")
          [1, 2, 3, 4, 5, 6, 7, 8, 9, 10, 11, 12] 12, ⟨sampleVector, 27, 27⟩) ∧
    readStructProperty (readProperties 2) (ascii "P") 56 ⟨sampleStruct, 0, 66⟩
      = (readProperties 2 ⟨sampleStruct, 10, 66⟩ 56).map
          (fun x => (.struct (ascii "P") (ascii "S") x.1, x.2)) ∧
    readProperties 2 ⟨sampleStruct, 10, 66⟩ 56
      = .ok ([.int (ascii "HP") 5], ⟨sampleStruct, 66, 66⟩) :=
  ⟨((readStructProperty_cases 2 (ascii "P") (ascii "Vector2D") 8 0 ⟨sampleVector2D, 0, 25⟩
      ⟨sampleVector2D, 13, 25⟩ ⟨sampleVector2D, 17, 25⟩ (by decide) (by decide)).1 rfl).2 rfl
      [1, 2, 3, 4, 5, 6, 7, 8] [] rfl (by decide),
   ((readStructProperty_cases 2 (ascii "P") (ascii "Vector") 12 0 ⟨sampleVector, 0, 27⟩
      ⟨sampleVector, 11, 27⟩ ⟨sampleVector, 15, 27⟩ (by decide) (by decide)).2.1 rfl).2 rfl
      [1, 2, 3, 4, 5, 6, 7, 8, 9, 10, 11, 12] [] rfl (by decide),
   (readStructProperty_cases 2 (ascii "P") (ascii "S") 56 0 ⟨sampleStruct, 0, 66⟩
      ⟨sampleStruct, 6, 66⟩ ⟨sampleStruct, 10, 66⟩ (by decide) (by decide)).2.2
      (by decide) (by decide),
   rfl⟩

/-- C12: the behaviour of the code on a checkpoint record whose property list
takes exactly the declared length `P = 56` of its block.  No padding byte is
consumed and the template index 9 is read from `P` bytes after the start of the
block, but the assignment to `padSize` (line 240) is not reached: the record is
stored with the field as the declaration `XComCheckpoint chk;` left it, and not
with `K = 0` written to it.  On the same record with the declared length 60 and
four bytes of padding the assignment is reached and `padSize = 4` is stored. -/
theorem readCheckpointTable_padSize_unassigned :
    readCheckpointProperties 2 56 ⟨sampleCheckpointTable 56 [], 50, 110⟩
      = .ok (([.int (ascii "HP") 5], none), ⟨sampleCheckpointTable 56 [], 106, 110⟩) ∧
    readCheckpointTable 2 ⟨sampleCheckpointTable 56 [], 0, 110⟩
      = .ok ([{ name := ascii "A", instanceName := ascii "B", vector := [0, 0, 0],
                rotator := [0, 0, 0], className := ascii "C",
                properties := [.int (ascii "HP") 5], padSize := none, templateIndex := 9 }],
          ⟨sampleCheckpointTable 56 [], 110, 110⟩) ∧
    readCheckpointTable 2 ⟨sampleCheckpointTable 60 [0, 0, 0, 0], 0, 114⟩
      = .ok ([{ name := ascii "A", instanceName := ascii "B", vector := [0, 0, 0],
                rotator := [0, 0, 0], className := ascii "C",
                properties := [.int (ascii "HP") 5], padSize := some 4, templateIndex := 9 }],
          ⟨sampleCheckpointTable 60 [0, 0, 0, 0], 114, 114⟩) :=
  ⟨rfl, rfl, rfl⟩

/-- C14, as stated, fails: in the list `X` (index 0), `Y` (index 1) the second
property is merged with the first although the names differ, and the static
array named `Y` that `readProperties` returns holds the element named `X`. -/
theorem readProperties_arrays_named_counterexample :
    readProperties 3 ⟨sampleMixedNames, 0, 97⟩ 97
      = .ok ([.staticArray (ascii "Y") [.int (ascii "X") 5, .int (ascii "Y") 6]],
          ⟨sampleMixedNames, 97, 97⟩) ∧
    (XComProperty.int (ascii "X") 5).getName ≠ ascii "Y" :=
  ⟨rfl, by decide⟩

/-- C14, amended: when, in the serialized list a call of `readProperties` reads,
every recognised entry with a non-zero array index carries the name of the
recognised entry read before it, every static array in the list the call
returns holds only elements that carry the static array's own name.  Without
that condition a property with a non-zero index is merged with the last entry
all the same: the difference of the names is only logged.  (The list of a
nested struct is the result of a call of its own.) -/
theorem readProperties_arrays_named (fuel : Nat) (r r' r'' : XComReader) (dataLen : Nat)
    (entries : List PropertyEntry) (properties : XComPropertyList)
    (hread : serializedEntries fuel (r.ptr_ + dataLen) r = .ok (entries, r'))
    (hnames : namesFollow none entries)
    (hret : readProperties fuel r dataLen = .ok (properties, r'')) :
    uniformArrays properties := by
  rw [readProperties, readPropertiesLoop_eq_coalesceAll fuel _ [] r r' _ hread] at hret
  cases hc : coalesceAll [] entries with
  | error e => simp [hc, Except.map] at hret
  | ok properties1 =>
    simp only [hc, Except.map, Except.ok.injEq, Prod.mk.injEq] at hret
    obtain ⟨rfl, -⟩ := hret
    exact coalesceAll_uniform entries [] properties1 none hc
      (by intro n elems h; simp at h) rfl hnames
      (serializedEntries_kind fuel _ r r' _ hread)

theorem readProperties_arrays_named_witness :
    uniformArrays [.int (ascii "W") 9,
      .staticArray (ascii "X") [.int (ascii "X") 5, .int (ascii "X") 6, .int (ascii "X") 7]] :=
  readProperties_arrays_named 5 ⟨sampleRun, 0, 181⟩ ⟨sampleRun, 181, 181⟩
    ⟨sampleRun, 181, 181⟩ 181
    [⟨ascii "W", 0, some (.int (ascii "W") 9)⟩, ⟨ascii "X", 0, some (.int (ascii "X") 5)⟩,
     ⟨ascii "X", 1, some (.int (ascii "X") 6)⟩, ⟨ascii "X", 2, some (.int (ascii "X") 7)⟩]
    _ rfl (by simp [namesFollow]) rfl

/-- C15: the behaviour of the code on a property list whose first entry, the
recognised entry `X`, carries the array index 1.  The result list is still
empty, so neither condition of acceptance holds; the decoding does not stop at
an index assertion but at `properties.back()` on the empty list (line 190).
On a list that is not empty the index tests stop the decoding as the claim
says: the index 2 right after a plain property fails the assertion of line 201,
and the index 3 after a static array of two elements that of line 196. -/
theorem coalesce_back_on_empty :
    readEntry (readProperties 1) ⟨sampleIndexOneFirst, 0, 55⟩
      = .ok (.property (ascii "X") 1 (some (.int (ascii "X") 5)),
          ⟨sampleIndexOneFirst, 42, 55⟩) ∧
    coalesce [] (ascii "X") 1 (.int (ascii "X") 5) = .error .emptyBack ∧
    readProperties 2 ⟨sampleIndexOneFirst, 0, 55⟩ 55 = .error .emptyBack ∧
    coalesce [.int (ascii "X") 5] (ascii "X") 2 (.int (ascii "X") 7) = .error .assertion ∧
    coalesce [.staticArray (ascii "X") [.int (ascii "X") 5, .int (ascii "X") 6]] (ascii "X") 3
      (.int (ascii "X") 7) = .error .assertion :=
  ⟨rfl, rfl, rfl, rfl, rfl⟩

/-- C20: the behaviour of the code on a property list whose first entry has
the array index 0 but an unknown type tag, followed by a recognised entry with
the array index 1.  The first entry adds nothing to the list, so the second
one reaches `properties.back()` with the list still empty. -/
theorem readProperties_back_on_empty :
    readEntry (readProperties 2) ⟨sampleUnknownThenIndexed, 0, 93⟩
      = .ok (.property (ascii "U") 0 none, ⟨sampleUnknownThenIndexed, 38, 93⟩) ∧
    readEntry (readProperties 1) ⟨sampleUnknownThenIndexed, 38, 93⟩
      = .ok (.property (ascii "X") 1 (some (.int (ascii "X") 5)),
          ⟨sampleUnknownThenIndexed, 80, 93⟩) ∧
    readProperties 3 ⟨sampleUnknownThenIndexed, 0, 93⟩ 93 = .error .emptyBack :=
  ⟨rfl, rfl, rfl⟩

/-- C18: the behaviour of the code on the container `sampleWrappingChunk` of
1048 bytes, whose one chunk has a valid magic number and the compressed size
`2^32 - 24`.  The step `compressedSize + 24` is 0 in `uint32_t`, so the walk does
not move forward: it stays at offset 1024, below the length 1048, and neither
`getUncompressedSize` nor `getUncompressedData` returns, however many chunks
they are allowed to visit. -/
theorem chunk_walk_wrapping :
    peek32 sampleWrappingChunk 1024 = some chunkMagic ∧
    peek32 sampleWrappingChunk (1024 + 8) = some 4294967272 ∧
    chunkStride 4294967272 = 0 ∧
    (1048 - 1024) / 24 + 1 = 2 ∧
    (∀ fuel, getUncompressedSize fuel ⟨sampleWrappingChunk, 0, 1048⟩ = .error .outOfFuel) ∧
    (∀ fuel buf, getUncompressedData storedLzo fuel ⟨sampleWrappingChunk, 0, 1048⟩ buf
      = .error .outOfFuel) :=
  ⟨by decide, by decide, by decide, by decide,
    fun fuel => getUncompressedSizeLoop_wrapping fuel 0,
    fun fuel buf => getUncompressedDataLoop_wrapping fuel buf⟩

/-- C13, as stated, fails: `readProperties` run with the bound 1 on the list
`[IntProperty "HP" = 5, "None"]` begins the entry at offset 0, inside the range,
reads it to its end and returns with the cursor at 43, beyond `0 + 1`. -/
theorem readProperties_cursor_counterexample :
    readProperties 2 ⟨encodeIntProperty (ascii "HP") 0 5 ++ encodeNone, 0, 56⟩ 1
      = .ok ([.int (ascii "HP") 5], ⟨encodeIntProperty (ascii "HP") 0 5 ++ encodeNone, 43, 56⟩) ∧
    ¬ (43 ≤ 0 + 1) :=
  ⟨rfl, by decide⟩

/-- C13, amended: when `readProperties(bound)` returns, every entry it has read
was begun at a cursor position inside the declared range `[start, start+bound)`:
the end of the range is tested before each entry is begun and nowhere else.
With the bound 0 nothing is read.  Otherwise the cursor is at the end of the
last entry read, which was begun inside the range, and that entry is the
`"None"` name or ends at or beyond `start + bound`.  So the cursor is at most
`start + bound` unless the last entry, begun inside the range, ends beyond it.
The buffer is the one the call started on, and the cursor has not moved back
and not left the buffer.  All of this holds for the list of a nested struct as
well, which is read by a call of its own with the declared size as bound. -/
theorem readProperties_cursor (fuel : Nat) (r r' : XComReader) (dataLen : Nat)
    (properties : XComPropertyList)
    (h : readProperties fuel r dataLen = .ok (properties, r')) :
    LoopRun (r.ptr_ + dataLen) r r' ∧
    (dataLen = 0 → r' = r ∧ properties = []) ∧
    (0 < dataLen → ∃ (n : Nat) (r0 : XComReader) (entry : Entry),
      r0.start_ = r.start_ ∧ r.ptr_ ≤ r0.ptr_ ∧ r0.ptr_ < r.ptr_ + dataLen ∧
      readEntry (readProperties n) r0 = .ok (entry, r') ∧
      (entry = .sentinel ∨ r.ptr_ + dataLen ≤ r'.ptr_)) ∧
    (r'.ptr_ ≤ r.ptr_ + dataLen ∨
      ∃ (n : Nat) (r0 : XComReader) (entry : Entry),
        r0.ptr_ < r.ptr_ + dataLen ∧ r.ptr_ + dataLen < r'.ptr_ ∧
        readEntry (readProperties n) r0 = .ok (entry, r')) ∧
    r'.start_ = r.start_ ∧ r.ptr_ ≤ r'.ptr_ ∧ r'.ptr_ ≤ max r.ptr_ r.start_.length := by
  have hrun : LoopRun (r.ptr_ + dataLen) r r' := readPropertiesLoop_run fuel _ [] properties r r' h
  have hlast := loopRun_last hrun
  have hr := readPropertiesLoop_reads (fun _ => True) (fun _ _ => trivial) fuel
    (r.ptr_ + dataLen) [] r (Or.inl trivial)
  have hf : Follows 0 r r' := reads_of_eq hr h
  refine ⟨hrun, ?_, ?_, ?_, hf.1, by have := hf.2.2.1; omega, hf.2.2.2⟩
  · intro h0
    subst h0
    cases fuel with
    | zero => simp [readProperties, readPropertiesLoop] at h
    | succ fuel =>
      rw [readProperties, readPropertiesLoop, if_neg (by omega)] at h
      simp only [Except.ok.injEq, Prod.mk.injEq] at h
      exact ⟨h.2.symm, h.1.symm⟩
  · intro hpos
    rcases hlast with ⟨-, hge⟩ | hex
    · omega
    · exact hex
  · rcases hlast with ⟨rfl, hge⟩ | ⟨n, r0, entry, -, -, hlt, he, -⟩
    · exact Or.inl (by omega)
    · by_cases hle : r'.ptr_ ≤ r.ptr_ + dataLen
      · exact Or.inl hle
      · exact Or.inr ⟨n, r0, entry, hlt, by omega, he⟩

theorem readProperties_cursor_witness :
    ∃ (n : Nat) (r0 : XComReader) (entry : Entry),
      r0.start_ = encodeIntProperty (ascii "HP") 0 5 ++ encodeNone ∧ 0 ≤ r0.ptr_ ∧
      r0.ptr_ < 0 + 1 ∧
      readEntry (readProperties n) r0
        = .ok (entry, ⟨encodeIntProperty (ascii "HP") 0 5 ++ encodeNone, 43, 56⟩) ∧
      (entry = .sentinel ∨ 0 + 1 ≤ 43) :=
  (readProperties_cursor 2 ⟨encodeIntProperty (ascii "HP") 0 5 ++ encodeNone, 0, 56⟩
    ⟨encodeIntProperty (ascii "HP") 0 5 ++ encodeNone, 43, 56⟩ 1 [.int (ascii "HP") 5]
    rfl).2.2.1 (by decide)

/-- C19: `readProperties` terminates on every buffer and every bound: with
more units of fuel than there are bytes between the cursor and the end of the
buffer it does not run out of fuel.  Each pass through the loop that reads an
entry moves the cursor forward by at least 8 bytes, whatever the entry is, and
stays inside the buffer; and the entry read calls `readProperties` for a nested
struct only in states at least 32 bytes after the start of the entry: if the
call cannot run out of fuel in those states, the entry read cannot. -/
theorem readProperties_terminates (fuel dataLen : Nat) (r : XComReader)
    (hfuel : r.start_.length - r.ptr_ < fuel) :
    readProperties fuel r dataLen ≠ .error .outOfFuel ∧
    (∀ (n : Nat) (entry : Entry) (r' : XComReader),
      readEntry (readProperties n) r = .ok (entry, r') →
        r.ptr_ + 8 ≤ r'.ptr_ ∧ r'.ptr_ ≤ r.start_.length) ∧
    (∀ n : Nat,
      (∀ r2 d, r2.start_ = r.start_ → r.ptr_ + 32 ≤ r2.ptr_ → r2.ptr_ ≤ r.start_.length →
        readProperties n r2 d ≠ .error .outOfFuel) →
      readEntry (readProperties n) r ≠ .error .outOfFuel) := by
  refine ⟨?_, ?_, ?_⟩
  · have hr := readPropertiesLoop_reads (fun e => e ≠ .outOfFuel) (fun _ h => h) fuel
      (r.ptr_ + dataLen) [] r (Or.inr hfuel)
    intro h
    rw [readProperties] at h
    rw [h] at hr
    exact hr rfl
  · intro n entry r' h
    have hr := readEntry_reads (fun _ => True) (fun _ _ => trivial) (readProperties n) r
      (fun r2 d _ => readPropertiesLoop_reads (fun _ => True) (fun _ _ => trivial) n
        (r2.ptr_ + d) [] r2 (Or.inl trivial))
    have hf : Follows 8 r r' := reads_of_eq hr h
    obtain ⟨-, -, hp, hm⟩ := hf
    exact ⟨hp, by omega⟩
  · intro n hrec
    have hr := readEntry_reads (fun e => e ≠ .outOfFuel) (fun _ h => h) (readProperties n) r
      (fun r2 d hf => by
        have hmove := readPropertiesLoop_reads (fun _ => True) (fun _ _ => trivial) n
          (r2.ptr_ + d) [] r2 (Or.inl trivial)
        obtain ⟨hs, -, hp, hm⟩ := hf
        have hne := hrec r2 d hs hp (by omega)
        rw [readProperties] at hne
        cases hx : readPropertiesLoop n (r2.ptr_ + d) [] r2 with
        | error e =>
          rw [hx] at hne
          show Reads _ 0 r2 (readPropertiesLoop n (r2.ptr_ + d) [] r2)
          rw [hx]
          intro he
          exact hne (by rw [he])
        | ok v =>
          show Reads _ 0 r2 (readPropertiesLoop n (r2.ptr_ + d) [] r2)
          rw [hx] at hmove ⊢
          exact hmove)
    intro h
    rw [h] at hr
    exact hr rfl

theorem readProperties_terminates_witness :
    readProperties 57 ⟨encodeIntProperty (ascii "HP") 0 5 ++ encodeNone, 0, 56⟩ 56
      ≠ .error .outOfFuel :=
  (readProperties_terminates 57 56 ⟨encodeIntProperty (ascii "HP") 0 5 ++ encodeNone, 0, 56⟩
    (by decide)).1

end XCom
